import Mathlib

/-!
Shallow embedding of the moleculer registry (`src/registry/registry.js`)
and the catalogs it drives.  The `Registry` class methods are translated
directly from the source; the catalog collaborators (`node-catalog`,
`service-catalog`, `action-catalog`), whose files are not part of the
sources, are modelled from the specification (each such definition says so
in its doc comment).  JavaScript objects keyed by strings become
association lists with upsert semantics; `undefined` returns become
`Option.none`.
-/

namespace Moleculer

/-- Circuit-breaker state of an endpoint, drawn from {CLOSED, OPEN, HALF_OPEN}. -/
inductive CircuitState where
  | closed
  | opened
  | halfOpen
deriving DecidableEq, Repr

/-- Action descriptor carried in a service descriptor: name, cache flag, an
opaque parameter schema token, the `protected` flag consulted by
`getActionList`, and the optional handler reference and service
back-reference that `getActionList` omits from its projection. -/
structure ActionDesc where
  name : String
  cache : Bool
  params : Nat
  protected_ : Bool
  handler : Option Nat
  service : Option String
deriving DecidableEq, Repr

/-- Projection of an action descriptor produced by
`_.omit(ep.action, ["handler", "service"])` in `getActionList`: every field
of the descriptor except the handler reference and the service
back-reference. -/
structure ActionProjection where
  name : String
  cache : Bool
  params : Nat
  protected_ : Bool
deriving DecidableEq, Repr

/-- Drops the `handler` and `service` fields of an action descriptor,
keeping everything else, as `_.omit(ep.action, ["handler", "service"])`
does. -/
def omitHandlerService (a : ActionDesc) : ActionProjection :=
  ⟨a.name, a.cache, a.params, a.protected_⟩

/-- Node of the node catalog: identity plus the `available` and `local`
flags the registry consults. -/
structure Node where
  id : String
  available : Bool
  isLocal : Bool
deriving DecidableEq, Repr

/-- Incoming service descriptor of an INFO payload: name, optional version,
an opaque settings token and the action map (association by action name). -/
structure ServiceDesc where
  name : String
  version : Option Nat
  settings : Nat
  actions : List ActionDesc
deriving DecidableEq, Repr

/-- Stored service item of the service catalog, identified by
`(name, version, nodeId)`, carrying the settings and the accumulated map of
actions by name. -/
structure ServiceItem where
  name : String
  version : Option Nat
  nodeId : String
  settings : Nat
  actions : List ActionDesc
deriving DecidableEq, Repr

/-- Action endpoint: the hosting node (id and local flag), the owning
service key, the action descriptor, and the circuit-breaker state. -/
structure Endpoint where
  nodeId : String
  isLocal : Bool
  serviceName : String
  serviceVersion : Option Nat
  action : ActionDesc
  state : CircuitState
deriving DecidableEq, Repr

/-- Action entry of the action catalog: the endpoint list registered under
one action name. -/
structure EndpointList where
  name : String
  endpoints : List Endpoint
deriving DecidableEq, Repr

/-- Record of a local event emission (`broker.emitLocal`), keeping the
event name, the node id of the payload and the boolean flag
(`unexpected` for `$node.disconnected`). -/
structure EmittedEvent where
  name : String
  nodeId : String
  flag : Bool
deriving DecidableEq, Repr

/-- State owned by the registry: the local node, the node catalog, the
service catalog, the action catalog and the log of locally emitted
events. -/
structure RegistryState where
  localNode : Node
  nodes : List Node
  services : List ServiceItem
  actions : List EndpointList
  emitted : List EmittedEvent
deriving DecidableEq, Repr

/-- Initial registry state: only the local node is known and every catalog
is empty. -/
def initRegistry (ln : Node) : RegistryState :=
  ⟨ln, [ln], [], [], []⟩

/-- Key test for a stored service: `(name, version, nodeId)` identity from
the data model. -/
def ServiceItem.matchKey (s : ServiceItem) (nm : String) (v : Option Nat)
    (nid : String) : Bool :=
  s.name == nm && s.version == v && s.nodeId == nid

/-- Modelled from the spec: `ServiceCatalog.get(name, version, nodeID)`
(service-catalog is not among the sources) finds the stored service with
the given `(name, version, nodeId)` identity. -/
def servicesGet (nm : String) (v : Option Nat) (nid : String)
    (st : RegistryState) : Option ServiceItem :=
  st.services.find? (fun s => s.matchKey nm v nid)

/-- Modelled from the spec: `ServiceCatalog.add(node, name, version,
settings)` (service-catalog is not among the sources) creates a stored
service item with an empty action map and appends it; `registry.js` itself
checks for an existing entry before calling it in `registerServices`. -/
def servicesAdd (node : Node) (nm : String) (v : Option Nat) (settings : Nat)
    (st : RegistryState) : RegistryState :=
  { st with services := st.services ++ [⟨nm, v, node.id, settings, []⟩] }

/-- Modelled from the spec: `ServiceItem.update(svc)` (service-catalog is
not among the sources) replaces the settings of the stored service when the
same `(name, version, nodeId)` reappears. -/
def serviceUpdate (nm : String) (v : Option Nat) (nid : String)
    (settings : Nat) (st : RegistryState) : RegistryState :=
  { st with services := st.services.map (fun s =>
      if s.matchKey nm v nid then { s with settings := settings } else s) }

/-- Upsert into an action map keyed by action name: replace the descriptor
stored under the name if present, else append it. -/
def upsertAction (acts : List ActionDesc) (a : ActionDesc) : List ActionDesc :=
  if acts.any (fun b => b.name == a.name) then
    acts.map (fun b => if b.name == a.name then a else b)
  else acts ++ [a]

/-- Modelled from the spec: `ServiceItem.addAction(action)` (service-catalog
is not among the sources) records the action in the stored service's map of
actions by name. -/
def serviceAddAction (nm : String) (v : Option Nat) (nid : String)
    (a : ActionDesc) (st : RegistryState) : RegistryState :=
  { st with services := st.services.map (fun s =>
      if s.matchKey nm v nid then { s with actions := upsertAction s.actions a }
      else s) }

/-- Fresh endpoint created when an action is first registered for a node:
circuit state CLOSED, locality copied from the node. -/
def newEndpoint (node : Node) (snm : String) (sv : Option Nat)
    (a : ActionDesc) : Endpoint :=
  ⟨node.id, node.isLocal, snm, sv, a, CircuitState.closed⟩

/-- Modelled from the spec: `EndpointList.add` (action-catalog is not among
the sources) keeps at most one endpoint per node id — it updates the
endpoint of the node in place if present (keeping its circuit state) and
appends a fresh CLOSED endpoint otherwise. -/
def entryAdd (node : Node) (snm : String) (sv : Option Nat) (a : ActionDesc)
    (e : EndpointList) : EndpointList :=
  if e.endpoints.any (fun ep => ep.nodeId == node.id) then
    { e with endpoints := e.endpoints.map (fun ep =>
        if ep.nodeId == node.id then
          { ep with serviceName := snm, serviceVersion := sv, action := a }
        else ep) }
  else { e with endpoints := e.endpoints ++ [newEndpoint node snm sv a] }

/-- Modelled from the spec: `ActionCatalog.add(node, service, action)`
(action-catalog is not among the sources) upserts an endpoint into the
entry of the action's name, creating the entry when the name is new. -/
def actionsAdd (node : Node) (snm : String) (sv : Option Nat)
    (a : ActionDesc) (st : RegistryState) : RegistryState :=
  if st.actions.any (fun e => e.name == a.name) then
    { st with actions := st.actions.map (fun e =>
        if e.name == a.name then entryAdd node snm sv a e else e) }
  else
    { st with actions := st.actions ++ [⟨a.name, [newEndpoint node snm sv a]⟩] }

/-- Modelled from the spec: `ActionCatalog.remove(name, nodeID)`
(action-catalog is not among the sources) removes the endpoint of the given
node from the entry of the given action name; the entry itself stays. -/
def actionsRemove (nm : String) (nid : String) (st : RegistryState) :
    RegistryState :=
  { st with actions := st.actions.map (fun e =>
      if e.name == nm then
        { e with endpoints := e.endpoints.filter (fun ep => !(ep.nodeId == nid)) }
      else e) }

/-- Modelled from the spec: the cascading unregistration run by
`ServiceCatalog.remove` (service-catalog is not among the sources) — every
endpoint owned by the removed service (matching node id and service key) is
dropped from every action entry. -/
def removeEndpointsOfService (nm : String) (v : Option Nat) (nid : String)
    (st : RegistryState) : RegistryState :=
  { st with actions := st.actions.map (fun e =>
      { e with endpoints := e.endpoints.filter (fun ep =>
          !(ep.nodeId == nid && ep.serviceName == nm && ep.serviceVersion == v)) }) }

/-- Modelled from the spec: `ServiceCatalog.remove(name, version, nodeID)`
(service-catalog is not among the sources) — when the stored service
exists, drop it and unregister its actions. -/
def servicesRemove (nm : String) (v : Option Nat) (nid : String)
    (st : RegistryState) : RegistryState :=
  match servicesGet nm v nid st with
  | none => st
  | some _ =>
      removeEndpointsOfService nm v nid
        { st with services := st.services.filter (fun s => !(s.matchKey nm v nid)) }

/-- Modelled from the spec: `ServiceCatalog.removeAllByNodeID(nodeID)`
(service-catalog is not among the sources) — the cascading unregistration of
a node's services and actions: every stored service of the node and every
endpoint of the node are dropped. -/
def removeAllByNodeID (nid : String) (st : RegistryState) : RegistryState :=
  { st with
    services := st.services.filter (fun s => !(s.nodeId == nid)),
    actions := st.actions.map (fun e =>
      { e with endpoints := e.endpoints.filter (fun ep => !(ep.nodeId == nid)) }) }

/-- Translates `Registry.unregisterService` (registry.js lines 125-127). -/
def unregisterService (nm : String) (v : Option Nat) (nid : String)
    (st : RegistryState) : RegistryState :=
  servicesRemove nm v nid st

/-- Translates `Registry.unregisterServicesByNode` (registry.js lines
129-131). -/
def unregisterServicesByNode (nid : String) (st : RegistryState) :
    RegistryState :=
  removeAllByNodeID nid st

/-- Translates `Registry.unregisterAction` (registry.js lines 133-135):
`this.actions.remove(name, node.id)`. -/
def unregisterAction (node : Node) (nm : String) (st : RegistryState) :
    RegistryState :=
  actionsRemove nm node.id st

/-- Translates `Registry.registerActions` (registry.js lines 108-113): for
each action, `this.actions.add(node, service, action)` then
`service.addAction(action)`. -/
def registerActions (node : Node) (snm : String) (sv : Option Nat)
    (acts : List ActionDesc) (st : RegistryState) : RegistryState :=
  acts.foldl (fun s a => serviceAddAction snm sv node.id a (actionsAdd node snm sv a s)) st

/-- Translates the per-descriptor body of `Registry.registerServices`
(registry.js lines 70-89): look the service up by `(name, version, node)`;
create it when missing, else snapshot its action map and update it; register
the descriptor's actions; finally, in the update case, unregister every
action of the snapshot that the new descriptor omits. -/
def registerServiceOne (node : Node) (svc : ServiceDesc) (st : RegistryState) :
    RegistryState :=
  match servicesGet svc.name svc.version node.id st with
  | none =>
      registerActions node svc.name svc.version svc.actions
        (servicesAdd node svc.name svc.version svc.settings st)
  | some service =>
      let prevActions := service.actions
      let st1 := serviceUpdate svc.name svc.version node.id svc.settings st
      let st2 := registerActions node svc.name svc.version svc.actions st1
      prevActions.foldl (fun s a =>
        if svc.actions.any (fun b => b.name == a.name) then s
        else unregisterAction node a.name s) st2

/-- Translates the removal pass of `Registry.registerServices` (registry.js
lines 91-105): every stored service of this node whose `(name, version)`
does not appear in the new list is unregistered. -/
def reconcileRemove (node : Node) (serviceList : List ServiceDesc)
    (st : RegistryState) : RegistryState :=
  st.services.foldl (fun s service =>
    if service.nodeId == node.id &&
        !(serviceList.any (fun svc =>
            service.name == svc.name && service.version == svc.version)) then
      unregisterService service.name service.version node.id s
    else s) st

/-- Translates `Registry.registerServices` (registry.js lines 67-106):
process every incoming descriptor, then remove the node's stored services
that the new list no longer carries. -/
def registerServices (node : Node) (serviceList : List ServiceDesc)
    (st : RegistryState) : RegistryState :=
  reconcileRemove node serviceList
    (serviceList.foldl (fun s svc => registerServiceOne node svc s) st)

/-- Translates `Registry.registerLocalService` (registry.js lines 59-65):
add the service for the local node unconditionally, then register its
actions. -/
def registerLocalService (svc : ServiceDesc) (st : RegistryState) :
    RegistryState :=
  registerActions st.localNode svc.name svc.version svc.actions
    (servicesAdd st.localNode svc.name svc.version svc.settings st)

/-- Translates `Registry.nodeDisconnected` (registry.js lines 40-53): when
the node is known and available, mark it unavailable, unregister its
services by node, and emit the local `$node.disconnected` event with the
`unexpected` flag; otherwise do nothing. -/
def nodeDisconnected (nodeID : String) (isUnexpected : Bool)
    (st : RegistryState) : RegistryState :=
  match st.nodes.find? (fun m => m.id == nodeID) with
  | some node =>
      if node.available then
        let stA := { st with nodes := st.nodes.map (fun m =>
          if m.id == nodeID then { m with available := false } else m) }
        let stB := unregisterServicesByNode node.id stA
        { stB with emitted := stB.emitted ++ [⟨"$node.disconnected", node.id, isUnexpected⟩] }
      else st
  | none => st

/-- INFO payload as the node catalog consumes it: the sender's node id and
its full service list. -/
structure InfoPayload where
  sender : String
  services : List ServiceDesc
deriving DecidableEq, Repr

/-- Modelled from the spec: `NodeCatalog.processNodeInfo(payload)`
(node-catalog is not among the sources) upserts the sender's node, emits
`$node.connected` on an unavailable-to-available transition, replaces the
node's service list through the service catalog, and returns whether the
node is new. -/
def nodesProcessNodeInfo (p : InfoPayload) (st : RegistryState) :
    RegistryState × Bool :=
  match st.nodes.find? (fun m => m.id == p.sender) with
  | none =>
      let node : Node := ⟨p.sender, true, false⟩
      let st1 := { st with nodes := st.nodes ++ [node] }
      (registerServices node p.services st1, true)
  | some node =>
      let node' : Node := { node with available := true }
      let st1 := { st with nodes := st.nodes.map (fun m =>
        if m.id == p.sender then node' else m) }
      let st2 :=
        if node.available then st1
        else { st1 with emitted := st1.emitted ++ [⟨"$node.connected", node.id, false⟩] }
      (registerServices node' p.services st2, false)

/-- Translates `Registry.processNodeInfo` (registry.js lines 36-38): the
method body is the bare statement `this.nodes.processNodeInfo(payload);`
with no `return`, so the method itself evaluates to `undefined`
(`Option.none`) regardless of what the node catalog computed. -/
def processNodeInfo (p : InfoPayload) (st : RegistryState) :
    RegistryState × Option Bool :=
  ((nodesProcessNodeInfo p st).1, none)

/-- Translates `Registry.getActionEndpoints` (registry.js lines 115-117):
`this.actions.get(actionName)`; the action catalog's `get` (not among the
sources) is modelled from the spec as lookup of the entry by name. -/
def getActionEndpoints (actionName : String) (st : RegistryState) :
    Option EndpointList :=
  st.actions.find? (fun e => e.name == actionName)

/-- Modelled from the spec: `EndpointList.getEndpointByNodeID`
(action-catalog is not among the sources) returns the endpoint of the given
node, if any. -/
def getEndpointByNodeID (e : EndpointList) (nid : String) : Option Endpoint :=
  e.endpoints.find? (fun ep => ep.nodeId == nid)

/-- Translates `Registry.getActionEndpointByNodeId` (registry.js lines
119-123): look the entry up; when present return its endpoint for the node;
when absent fall through without a `return`, i.e. yield `undefined`. -/
def getActionEndpointByNodeId (actionName : String) (nid : String)
    (st : RegistryState) : Option Endpoint :=
  match getActionEndpoints actionName st with
  | some list => getEndpointByNodeID list nid
  | none => none

/-- Modelled from the spec: `EndpointList.hasLocal` (action-catalog is not
among the sources) — some endpoint of the entry is local. -/
def entryHasLocal (e : EndpointList) : Bool :=
  e.endpoints.any (fun ep => ep.isLocal)

/-- Modelled from the spec: an endpoint is available iff its node is
available and its circuit state is not OPEN (the endpoint classes are not
among the sources). -/
def epAvailable (st : RegistryState) (ep : Endpoint) : Bool :=
  (match st.nodes.find? (fun nd => nd.id == ep.nodeId) with
   | some nd => nd.available
   | none => false) && !(ep.state == CircuitState.opened)

/-- Modelled from the spec: `EndpointList.hasAvailable` (action-catalog is
not among the sources) — some endpoint of the entry is available. -/
def entryHasAvailable (st : RegistryState) (e : EndpointList) : Bool :=
  e.endpoints.any (epAvailable st)

/-- Endpoint projection `{nodeID, state}` used by `getActionList` when
`withEndpoints` is set. -/
structure EndpointProjection where
  nodeID : String
  state : CircuitState
deriving DecidableEq, Repr

/-- Item of the list returned by `Registry.getActionList`. -/
structure ActionListItem where
  name : String
  count : Nat
  hasLocal : Bool
  available : Bool
  action : ActionProjection
  endpoints : Option (List EndpointProjection)
deriving DecidableEq, Repr

/-- Test of the reserved-name regular expression `/^$node/` used by
`getActionList`: the name starts with the characters `$node`. -/
def regexNodeTest (s : String) : Bool :=
  "$node".data.isPrefixOf s.data

/-- Translates the loop body of `Registry.getActionList` (registry.js lines
156-189) for one entry: apply the `skipInternal` and `onlyLocal` filters,
build the item, project the first endpoint's action without its handler and
service fields, drop the item when that projection is missing or protected,
and attach endpoint projections when `withEndpoints` is set. -/
def getActionListStep (onlyLocal skipInternal withEndpoints : Bool)
    (st : RegistryState) (res : List ActionListItem) (entry : EndpointList) :
    List ActionListItem :=
  if skipInternal && regexNodeTest entry.name then res
  else if onlyLocal && !(entryHasLocal entry) then res
  else
    match (if entry.endpoints.length > 0 then
             (entry.endpoints.head?).map (fun ep => omitHandlerService ep.action)
           else none) with
    | none => res
    | some act =>
        if act.protected_ then res
        else
          res ++ [{ name := entry.name,
                    count := entry.endpoints.length,
                    hasLocal := entryHasLocal entry,
                    available := entryHasAvailable st entry,
                    action := act,
                    endpoints :=
                      if withEndpoints && entry.endpoints.length > 0 then
                        some (entry.endpoints.map (fun ep => ⟨ep.nodeId, ep.state⟩))
                      else none }]

/-- Translates `Registry.getActionList` (registry.js lines 153-192). -/
def getActionList (onlyLocal skipInternal withEndpoints : Bool)
    (st : RegistryState) : List ActionListItem :=
  st.actions.foldl (getActionListStep onlyLocal skipInternal withEndpoints st) []

/-- Shape of an item that one entry contributes to `getActionList`: the
entry passed the `skipInternal` and `onlyLocal` filters, its first endpoint
exists, the projected action is not protected, and the item is exactly the
record the loop builds. -/
def producedFrom (onlyLocal skipInternal withEndpoints : Bool)
    (st : RegistryState) (e : EndpointList) (i : ActionListItem) : Prop :=
  (skipInternal && regexNodeTest e.name) = false ∧
  (onlyLocal && !(entryHasLocal e)) = false ∧
  ∃ ep, e.endpoints.head? = some ep ∧
    (omitHandlerService ep.action).protected_ = false ∧
    i = { name := e.name,
          count := e.endpoints.length,
          hasLocal := entryHasLocal e,
          available := entryHasAvailable st e,
          action := omitHandlerService ep.action,
          endpoints :=
            if withEndpoints && e.endpoints.length > 0 then
              some (e.endpoints.map (fun ep => ⟨ep.nodeId, ep.state⟩))
            else none }

/-- Sample local node used by concrete witnesses. -/
def lnW : Node := ⟨"local-1", true, true⟩

/-- Sample remote node used by concrete witnesses. -/
def nodeA : Node := ⟨"A", true, false⟩

/-- Sample action descriptors and service descriptors for witnesses. -/
def actAdd : ActionDesc := ⟨"math.add", false, 0, false, some 1, some "math"⟩

/-- Sample action descriptor `math.sub`. -/
def actSub : ActionDesc := ⟨"math.sub", false, 0, false, some 2, some "math"⟩

/-- Sample action descriptor `post.find`. -/
def actFind : ActionDesc := ⟨"post.find", false, 0, false, some 3, some "post"⟩

/-- Sample service descriptor `math` with two actions. -/
def svcMath : ServiceDesc := ⟨"math", none, 7, [actAdd, actSub]⟩

/-- Sample service descriptor `math` carrying only `math.add`. -/
def svcMathOnlyAdd : ServiceDesc := ⟨"math", none, 7, [actAdd]⟩

/-- Sample service descriptor `post` with one action. -/
def svcPost : ServiceDesc := ⟨"post", none, 3, [actFind]⟩

/-- Sample state with the `math` service registered locally. -/
def stW : RegistryState := registerLocalService svcMath (initRegistry lnW)

/-- Item that `getActionList` yields for `math.add` in `stW`. -/
def itemW : ActionListItem :=
  { name := "math.add", count := 1, hasLocal := true, available := true,
    action := ⟨"math.add", false, 0, false⟩,
    endpoints := some [⟨"local-1", CircuitState.closed⟩] }

/-- Shell of the registry state untouched by the service/action catalog
operations: the local node, the node catalog and the event log. -/
def sameShell (st st' : RegistryState) : Prop :=
  st'.localNode = st.localNode ∧ st'.nodes = st.nodes ∧ st'.emitted = st.emitted

/-- Uniqueness of stored services: no two entries share the
`(name, version, nodeId)` identity. -/
def servicesUnique (l : List ServiceItem) : Prop :=
  l.Pairwise (fun a b => ¬(a.name = b.name ∧ a.version = b.version ∧ a.nodeId = b.nodeId))

/-- Uniqueness of endpoints inside one action entry: at most one endpoint
per node id. -/
def entryNodesUnique (e : EndpointList) : Prop :=
  e.endpoints.Pairwise (fun p q => p.nodeId ≠ q.nodeId)

/-- Uniqueness of the action catalog: entry names are pairwise distinct and
every entry has at most one endpoint per node id. -/
def actionsUnique (l : List EndpointList) : Prop :=
  l.Pairwise (fun a b => a.name ≠ b.name) ∧ ∀ e ∈ l, entryNodesUnique e

/-- Catalog uniqueness invariant of the registry state. -/
def CatalogUnique (st : RegistryState) : Prop :=
  servicesUnique st.services ∧ actionsUnique st.actions

/-- States reachable by arbitrary sequences of the five registry
operations, with no restriction at all on the inputs. -/
inductive ReachAny : RegistryState → Prop where
  | init (ln : Node) : ReachAny (initRegistry ln)
  | regLocal (svc : ServiceDesc) (st : RegistryState) : ReachAny st →
      ReachAny (registerLocalService svc st)
  | regServices (node : Node) (L : List ServiceDesc) (st : RegistryState) :
      ReachAny st → ReachAny (registerServices node L st)
  | disconnect (n : String) (u : Bool) (st : RegistryState) :
      ReachAny st → ReachAny (nodeDisconnected n u st)
  | unregService (nm : String) (v : Option Nat) (nid : String)
      (st : RegistryState) : ReachAny st → ReachAny (unregisterService nm v nid st)
  | unregAction (node : Node) (nm : String) (st : RegistryState) :
      ReachAny st → ReachAny (unregisterAction node nm st)

/-- States reachable when, additionally, every `registerLocalService` call
registers a `(name, version)` that is not yet stored for the local node
(the registry performs no such check itself; see the counterexample). -/
inductive ReachFresh : RegistryState → Prop where
  | init (ln : Node) : ReachFresh (initRegistry ln)
  | regLocal (svc : ServiceDesc) (st : RegistryState) : ReachFresh st →
      servicesGet svc.name svc.version st.localNode.id st = none →
      ReachFresh (registerLocalService svc st)
  | regServices (node : Node) (L : List ServiceDesc) (st : RegistryState) :
      ReachFresh st → ReachFresh (registerServices node L st)
  | disconnect (n : String) (u : Bool) (st : RegistryState) :
      ReachFresh st → ReachFresh (nodeDisconnected n u st)
  | unregService (nm : String) (v : Option Nat) (nid : String)
      (st : RegistryState) : ReachFresh st → ReachFresh (unregisterService nm v nid st)
  | unregAction (node : Node) (nm : String) (st : RegistryState) :
      ReachFresh st → ReachFresh (unregisterAction node nm st)

/-- Absence of endpoints of a node under an action name: every entry of
that name in the action catalog has no endpoint of the node. -/
def noEndpointOn (x : String) (nid : String) (st : RegistryState) : Prop :=
  ∀ e ∈ st.actions, e.name = x → ∀ ep ∈ e.endpoints, ep.nodeId ≠ nid

/-- Lookup of a stored service that still carries an action of the given
name in its action map. -/
def foundWithAction (nm : String) (v : Option Nat) (nid : String) (x : String)
    (st : RegistryState) : Prop :=
  ∃ T, servicesGet nm v nid st = some T ∧
    T.actions.any (fun b => b.name == x) = true

/-- Existence of a stored service under the given identity. -/
def foundKey (nm : String) (v : Option Nat) (nid : String)
    (st : RegistryState) : Prop :=
  ∃ T, servicesGet nm v nid st = some T

/-- Ownership of a node's endpoints under an action name: every endpoint of
the node stored under that action name carries the given service key. -/
def epOwner (x : String) (nid : String) (nm : String) (v : Option Nat)
    (st : RegistryState) : Prop :=
  ∀ e ∈ st.actions, e.name = x → ∀ ep ∈ e.endpoints, ep.nodeId = nid →
    ep.serviceName = nm ∧ ep.serviceVersion = v

/-- Good shape of a stored action map after a reconcile: every action of the
descriptor is stored under its name, and everything stored under one of
those names is that very descriptor entry. -/
def mapClean (svc : ServiceDesc) (T : ServiceItem) : Prop :=
  ∀ a ∈ svc.actions, (T.actions.any (fun b => b.name == a.name) = true) ∧
    ∀ b ∈ T.actions, b.name = a.name → b = a

/-- Good shape of the action catalog for one action of a service after a
reconcile: the entry of the action's name exists, and in every entry of
that name the node's endpoint exists and carries exactly this service key
and this descriptor. -/
def epClean (node : Node) (snm : String) (sv : Option Nat) (a : ActionDesc)
    (st : RegistryState) : Prop :=
  (st.actions.any (fun e => e.name == a.name) = true) ∧
  ∀ e ∈ st.actions, e.name = a.name →
    (e.endpoints.any (fun ep => ep.nodeId == node.id) = true) ∧
    ∀ ep ∈ e.endpoints, ep.nodeId = node.id →
      ep.serviceName = snm ∧ ep.serviceVersion = sv ∧ ep.action = a

/-- Full post-reconcile shape for one descriptor of the list: its stored
item is found with the given value, the settings and the action map agree
with the descriptor, obsolete map names have no endpoint left, and every
descriptor action has a clean catalog entry. -/
def svcCleanState (node : Node) (svc : ServiceDesc) (T : ServiceItem)
    (st : RegistryState) : Prop :=
  servicesGet svc.name svc.version node.id st = some T ∧
  T.settings = svc.settings ∧
  mapClean svc T ∧
  (∀ y ∈ T.actions, svc.actions.any (fun b => b.name == y.name) = false →
    noEndpointOn y.name node.id st) ∧
  (∀ a ∈ svc.actions, epClean node svc.name svc.version a st)

section Theorems

/-- One step of the `getActionList` loop only keeps previous items or adds
an item produced from the inspected entry. -/
theorem getActionListStep_mem {oL sI wE : Bool} {st : RegistryState}
    {res : List ActionListItem} {e : EndpointList} {i : ActionListItem}
    (h : i ∈ getActionListStep oL sI wE st res e) :
    i ∈ res ∨ producedFrom oL sI wE st e i := by
  unfold getActionListStep at h
  split at h
  · exact Or.inl h
  next hg1 =>
    split at h
    · exact Or.inl h
    next hg2 =>
      split at h
      · exact Or.inl h
      next act heq =>
        split at h
        · exact Or.inl h
        next hprot =>
          rcases List.mem_append.mp h with h' | h'
          · exact Or.inl h'
          · right
            have hi := List.mem_singleton.mp h'
            refine ⟨by simpa using hg1, by simpa using hg2, ?_⟩
            split at heq
            · rcases Option.map_eq_some'.mp heq with ⟨ep, hep, hact⟩
              refine ⟨ep, hep, ?_, ?_⟩
              · rw [hact]; simpa using hprot
              · rw [hi, hact]
            · exact absurd heq (by simp)

/-- Folding the `getActionList` loop over a list of entries only produces
items coming from those entries or from the accumulator. -/
theorem mem_foldl_getActionListStep (oL sI wE : Bool) (st : RegistryState) :
    ∀ (l : List EndpointList) (res : List ActionListItem) (i : ActionListItem),
      i ∈ l.foldl (getActionListStep oL sI wE st) res →
      i ∈ res ∨ ∃ e ∈ l, producedFrom oL sI wE st e i := by
  intro l
  induction l with
  | nil => intro res i h; exact Or.inl h
  | cons e t ih =>
    intro res i h
    rcases ih _ i h with h' | ⟨e', he', hp⟩
    · rcases getActionListStep_mem h' with h'' | hp
      · exact Or.inl h''
      · exact Or.inr ⟨e, List.mem_cons_self e t, hp⟩
    · exact Or.inr ⟨e', List.mem_cons_of_mem e he', hp⟩

/-- Every item of `getActionList` is produced from some entry of the action
catalog. -/
theorem mem_getActionList {oL sI wE : Bool} {st : RegistryState}
    {i : ActionListItem} (h : i ∈ getActionList oL sI wE st) :
    ∃ e ∈ st.actions, producedFrom oL sI wE st e i := by
  rcases mem_foldl_getActionListStep oL sI wE st st.actions [] i h with h' | h'
  · cases h'
  · exact h'

/-- C9: for an action name with no entry in the action catalog,
`getActionEndpointByNodeId` returns nothing for every node id, and it
returns an endpoint only when an entry exists holding an endpoint of the
requested node. -/
theorem getActionEndpointByNodeId_safe (a : String) (st : RegistryState) :
    (getActionEndpoints a st = none →
      ∀ nid, getActionEndpointByNodeId a nid st = none) ∧
    (∀ nid ep, getActionEndpointByNodeId a nid st = some ep →
      ∃ e, getActionEndpoints a st = some e ∧ ep ∈ e.endpoints ∧ ep.nodeId = nid) := by
  constructor
  · intro h nid
    unfold getActionEndpointByNodeId
    rw [h]
  · intro nid ep h
    unfold getActionEndpointByNodeId at h
    cases hg : getActionEndpoints a st with
    | none => rw [hg] at h; exact absurd h (by simp)
    | some e =>
      rw [hg] at h
      refine ⟨e, rfl, List.mem_of_find?_eq_some h, ?_⟩
      have := List.find?_some h
      simpa using this

/-- Witness for C9 at a concrete input: the empty registry has no entry for
`math.mul`, and the lookup returns nothing rather than failing. -/
theorem getActionEndpointByNodeId_safe_witness :
    getActionEndpoints "math.mul" (initRegistry lnW) = none ∧
    getActionEndpointByNodeId "math.mul" "A" (initRegistry lnW) = none := by
  have h : getActionEndpoints "math.mul" (initRegistry lnW) = none := by decide
  exact ⟨h, (getActionEndpointByNodeId_safe "math.mul" (initRegistry lnW)).1 h "A"⟩

/-- C10: every item of `getActionList` comes from an entry with at least one
endpoint, the item's action is the projection of the first endpoint's
descriptor, and that projection never contains the handler reference or the
service back-reference (it is insensitive to both fields). -/
theorem getActionList_projection (oL sI wE : Bool) (st : RegistryState)
    (i : ActionListItem) (hi : i ∈ getActionList oL sI wE st) :
    (∃ e ∈ st.actions, e.name = i.name ∧ e.endpoints ≠ [] ∧
      ∃ ep, e.endpoints.head? = some ep ∧ i.action = omitHandlerService ep.action) ∧
    (∀ (d : ActionDesc) (h : Option Nat) (s : Option String),
      omitHandlerService { d with handler := h, service := s } = omitHandlerService d) := by
  constructor
  · rcases mem_getActionList hi with ⟨e, he, _, _, ep, hep, _, hrec⟩
    refine ⟨e, he, ?_, ?_, ep, hep, ?_⟩
    · rw [hrec]
    · intro hnil
      rw [hnil] at hep
      exact absurd hep (by simp)
    · rw [hrec]
  · intro d h s
    rfl

/-- Witness for C10 at a concrete input: the `math.add` item of the sample
local registration. -/
theorem getActionList_projection_witness :
    itemW ∈ getActionList true true true stW ∧
    ((∃ e ∈ stW.actions, e.name = itemW.name ∧ e.endpoints ≠ [] ∧
        ∃ ep, e.endpoints.head? = some ep ∧ itemW.action = omitHandlerService ep.action) ∧
      (∀ (d : ActionDesc) (h : Option Nat) (s : Option String),
        omitHandlerService { d with handler := h, service := s } = omitHandlerService d)) := by
  have h : itemW ∈ getActionList true true true stW := by decide
  exact ⟨h, getActionList_projection true true true stW itemW h⟩

/-- C5: with `skipInternal` no returned item has the reserved `$node`
prefix; with `onlyLocal` every returned item has a local endpoint; and in
every filter combination no returned item has a protected action. -/
theorem getActionList_filters (oL sI wE : Bool) (st : RegistryState)
    (i : ActionListItem) (hi : i ∈ getActionList oL sI wE st) :
    (sI = true → regexNodeTest i.name = false) ∧
    (oL = true → i.hasLocal = true ∧
      ∃ e ∈ st.actions, e.name = i.name ∧ ∃ ep ∈ e.endpoints, ep.isLocal = true) ∧
    i.action.protected_ = false := by
  rcases mem_getActionList hi with ⟨e, he, hg1, hg2, ep, hep, hprot, hrec⟩
  refine ⟨?_, ?_, ?_⟩
  · intro hsI
    rw [hrec]
    simpa [hsI] using hg1
  · intro hoL
    rw [hoL] at hg2
    simp only [Bool.true_and, Bool.not_eq_false'] at hg2
    constructor
    · rw [hrec]; exact hg2
    · refine ⟨e, he, by rw [hrec], ?_⟩
      have := List.any_eq_true.mp hg2
      simpa using this
  · rw [hrec]
    exact hprot

/-- Witness for C5 at a concrete input: the `math.add` item of the sample
local registration, with all three filters switched on. -/
theorem getActionList_filters_witness :
    itemW ∈ getActionList true true true stW ∧
    regexNodeTest itemW.name = false ∧
    itemW.hasLocal = true ∧
    itemW.action.protected_ = false := by
  have h : itemW ∈ getActionList true true true stW := by decide
  have hc := getActionList_filters true true true stW itemW h
  exact ⟨h, hc.1 rfl, (hc.2.1 rfl).1, hc.2.2⟩

theorem sameShell_refl (st : RegistryState) : sameShell st st :=
  ⟨rfl, rfl, rfl⟩

theorem sameShell_trans {a b c : RegistryState} (h1 : sameShell a b)
    (h2 : sameShell b c) : sameShell a c :=
  ⟨h2.1.trans h1.1, h2.2.1.trans h1.2.1, h2.2.2.trans h1.2.2⟩

theorem sameShell_servicesAdd (node : Node) (nm : String) (v : Option Nat)
    (settings : Nat) (st : RegistryState) :
    sameShell st (servicesAdd node nm v settings st) :=
  ⟨rfl, rfl, rfl⟩

theorem sameShell_serviceUpdate (nm : String) (v : Option Nat) (nid : String)
    (settings : Nat) (st : RegistryState) :
    sameShell st (serviceUpdate nm v nid settings st) :=
  ⟨rfl, rfl, rfl⟩

theorem sameShell_serviceAddAction (nm : String) (v : Option Nat)
    (nid : String) (a : ActionDesc) (st : RegistryState) :
    sameShell st (serviceAddAction nm v nid a st) :=
  ⟨rfl, rfl, rfl⟩

theorem sameShell_actionsAdd (node : Node) (snm : String) (sv : Option Nat)
    (a : ActionDesc) (st : RegistryState) :
    sameShell st (actionsAdd node snm sv a st) := by
  unfold actionsAdd
  split <;> exact ⟨rfl, rfl, rfl⟩

theorem sameShell_actionsRemove (nm : String) (nid : String)
    (st : RegistryState) : sameShell st (actionsRemove nm nid st) :=
  ⟨rfl, rfl, rfl⟩

theorem sameShell_removeEndpointsOfService (nm : String) (v : Option Nat)
    (nid : String) (st : RegistryState) :
    sameShell st (removeEndpointsOfService nm v nid st) :=
  ⟨rfl, rfl, rfl⟩

theorem sameShell_servicesRemove (nm : String) (v : Option Nat) (nid : String)
    (st : RegistryState) : sameShell st (servicesRemove nm v nid st) := by
  unfold servicesRemove
  split
  · exact sameShell_refl st
  · exact ⟨rfl, rfl, rfl⟩

theorem sameShell_removeAllByNodeID (nid : String) (st : RegistryState) :
    sameShell st (removeAllByNodeID nid st) :=
  ⟨rfl, rfl, rfl⟩

theorem sameShell_unregisterService (nm : String) (v : Option Nat)
    (nid : String) (st : RegistryState) :
    sameShell st (unregisterService nm v nid st) :=
  sameShell_servicesRemove nm v nid st

theorem sameShell_unregisterAction (node : Node) (nm : String)
    (st : RegistryState) : sameShell st (unregisterAction node nm st) :=
  sameShell_actionsRemove nm node.id st

theorem sameShell_registerActions (node : Node) (snm : String)
    (sv : Option Nat) : ∀ (acts : List ActionDesc) (st : RegistryState),
    sameShell st (registerActions node snm sv acts st) := by
  intro acts
  induction acts with
  | nil => intro st; exact sameShell_refl st
  | cons a t ih =>
    intro st
    have h1 := sameShell_actionsAdd node snm sv a st
    have h2 := sameShell_serviceAddAction snm sv node.id a (actionsAdd node snm sv a st)
    exact sameShell_trans (sameShell_trans h1 h2) (ih _)

theorem sameShell_foldl_unregisterAction (node : Node) (p : ActionDesc → Bool) :
    ∀ (l : List ActionDesc) (st : RegistryState),
    sameShell st (l.foldl (fun s a => if p a then s else unregisterAction node a.name s) st) := by
  intro l
  induction l with
  | nil => intro st; exact sameShell_refl st
  | cons a t ih =>
    intro st
    refine sameShell_trans ?_ (ih _)
    by_cases h : p a = true
    · simp only [h, if_true]; exact sameShell_refl st
    · simp only [Bool.not_eq_true] at h
      simp only [h, Bool.false_eq_true, if_false]
      exact sameShell_unregisterAction node a.name st

theorem sameShell_registerServiceOne (node : Node) (svc : ServiceDesc)
    (st : RegistryState) : sameShell st (registerServiceOne node svc st) := by
  unfold registerServiceOne
  split
  · exact sameShell_trans (sameShell_servicesAdd node svc.name svc.version svc.settings st)
      (sameShell_registerActions node svc.name svc.version svc.actions _)
  · refine sameShell_trans ?_ (sameShell_foldl_unregisterAction node _ _ _)
    exact sameShell_trans (sameShell_serviceUpdate svc.name svc.version node.id svc.settings st)
      (sameShell_registerActions node svc.name svc.version svc.actions _)

theorem sameShell_foldl_registerServiceOne (node : Node) :
    ∀ (l : List ServiceDesc) (st : RegistryState),
    sameShell st (l.foldl (fun s svc => registerServiceOne node svc s) st) := by
  intro l
  induction l with
  | nil => intro st; exact sameShell_refl st
  | cons svc t ih =>
    intro st
    exact sameShell_trans (sameShell_registerServiceOne node svc st) (ih _)

theorem sameShell_reconcileRemove (node : Node) (serviceList : List ServiceDesc)
    (st : RegistryState) : sameShell st (reconcileRemove node serviceList st) := by
  unfold reconcileRemove
  generalize st.services = snapshot
  induction snapshot generalizing st with
  | nil => exact sameShell_refl st
  | cons sv t ih =>
    refine sameShell_trans ?_ (ih _)
    dsimp only
    split
    · exact sameShell_unregisterService sv.name sv.version node.id st
    · exact sameShell_refl st

theorem sameShell_registerServices (node : Node) (serviceList : List ServiceDesc)
    (st : RegistryState) : sameShell st (registerServices node serviceList st) :=
  sameShell_trans (sameShell_foldl_registerServiceOne node serviceList st)
    (sameShell_reconcileRemove node serviceList _)

theorem sameShell_registerLocalService (svc : ServiceDesc) (st : RegistryState) :
    sameShell st (registerLocalService svc st) :=
  sameShell_trans (sameShell_servicesAdd st.localNode svc.name svc.version svc.settings st)
    (sameShell_registerActions st.localNode svc.name svc.version svc.actions _)

theorem marked_nodes_unavailable (nodes : List Node) (n : String) :
    ∀ m ∈ nodes.map (fun m => if m.id == n then { m with available := false } else m),
      m.id = n → m.available = false := by
  intro m hm hid
  rcases List.mem_map.mp hm with ⟨m0, _, rfl⟩
  by_cases h : m0.id = n
  · simp [h]
  · rw [if_neg (fun hc => h (by simpa using hc))] at hid
    exact absurd hid h

theorem nodeDisconnected_noop (n : String) (u : Bool) (st : RegistryState)
    (h : ∀ m, st.nodes.find? (fun x => x.id == n) = some m → m.available = false) :
    nodeDisconnected n u st = st := by
  unfold nodeDisconnected
  cases hf : st.nodes.find? (fun x => x.id == n) with
  | none => rfl
  | some node =>
    dsimp only
    rw [h node hf]
    simp

theorem nodeDisconnected_fired (n : String) (u : Bool) (st : RegistryState)
    (node : Node) (hf : st.nodes.find? (fun x => x.id == n) = some node)
    (hav : node.available = true) :
    nodeDisconnected n u st = { st with
      nodes := st.nodes.map (fun m => if m.id == n then { m with available := false } else m),
      services := st.services.filter (fun s => !(s.nodeId == node.id)),
      actions := st.actions.map (fun e =>
        { e with endpoints := e.endpoints.filter (fun ep => !(ep.nodeId == node.id)) }),
      emitted := st.emitted ++ [⟨"$node.disconnected", node.id, u⟩] } := by
  unfold nodeDisconnected
  rw [hf]
  dsimp only
  rw [if_pos hav]
  rfl

theorem find?_marked_nodes (nodes : List Node) (n : String) :
    (nodes.map (fun m => if m.id == n then { m with available := false } else m)).find?
        (fun x => x.id == n)
      = (nodes.find? (fun x => x.id == n)).map
          (fun m => if m.id == n then { m with available := false } else m) := by
  rw [List.find?_map]
  have hcomp : ((fun x => x.id == n) ∘ fun m =>
      if m.id == n then { m with available := false } else m) =
      (fun m : Node => m.id == n) := by
    funext m
    simp only [Function.comp_apply]
    by_cases h : m.id = n
    · rw [if_pos (by simpa using h)]
    · rw [if_neg (fun hc => h (by simpa using hc))]
  rw [hcomp]

/-- C8: when the node is unknown to the node catalog or already marked
unavailable, `nodeDisconnected` leaves the whole registry state (and thus
the event log) unchanged; and for every state a second `nodeDisconnected`
for the same node changes nothing beyond the first. -/
theorem nodeDisconnected_frame (n : String) (u : Bool) (st : RegistryState)
    (h : ∀ m, st.nodes.find? (fun x => x.id == n) = some m → m.available = false) :
    nodeDisconnected n u st = st ∧
    (nodeDisconnected n u st).emitted = st.emitted ∧
    ∀ (st2 : RegistryState) (u2 : Bool),
      nodeDisconnected n u2 (nodeDisconnected n u2 st2) = nodeDisconnected n u2 st2 := by
  refine ⟨nodeDisconnected_noop n u st h, by rw [nodeDisconnected_noop n u st h], ?_⟩
  intro st2 u2
  cases hf : st2.nodes.find? (fun x => x.id == n) with
  | none =>
    have h0 : nodeDisconnected n u2 st2 = st2 := by
      unfold nodeDisconnected; rw [hf]
    rw [h0, h0]
  | some node =>
    by_cases hav : node.available = true
    · have hfired := nodeDisconnected_fired n u2 st2 node hf hav
      apply nodeDisconnected_noop
      intro m hm
      rw [hfired] at hm
      dsimp only at hm
      rw [find?_marked_nodes, hf] at hm
      have hid : node.id = n := by simpa using List.find?_some hf
      rw [Option.map_some'] at hm
      rw [if_pos (by simpa using hid)] at hm
      cases hm
      rfl
    · have hav' : node.available = false := by simpa using hav
      have h0 : nodeDisconnected n u2 st2 = st2 := by
        unfold nodeDisconnected
        rw [hf]
        dsimp only
        rw [hav']
        simp
      rw [h0, h0]

/-- Witness for C8 at a concrete input: disconnecting a node the empty
registry never heard of changes nothing. -/
theorem nodeDisconnected_frame_witness :
    nodeDisconnected "ghost" true (initRegistry lnW) = initRegistry lnW ∧
    (nodeDisconnected "ghost" true (initRegistry lnW)).emitted = (initRegistry lnW).emitted := by
  have h : ∀ m, (initRegistry lnW).nodes.find? (fun x => x.id == "ghost") = some m →
      m.available = false := by
    intro m hm
    have hnone : (initRegistry lnW).nodes.find? (fun x => x.id == "ghost") = none := by decide
    rw [hnone] at hm
    cases hm
  have hc := nodeDisconnected_frame "ghost" true (initRegistry lnW) h
  exact ⟨hc.1, hc.2.1⟩

/-- C3: disconnecting a registered, available node marks it unavailable,
removes all of its services and all of its action endpoints (so no entry of
`getActionEndpoints` keeps an endpoint of the node), and emits the local
`$node.disconnected` event with the `unexpected` flag. -/
theorem nodeDisconnected_cascade (n : String) (u : Bool) (st : RegistryState)
    (node : Node) (hf : st.nodes.find? (fun x => x.id == n) = some node)
    (hav : node.available = true) :
    (∀ m ∈ (nodeDisconnected n u st).nodes, m.id = n → m.available = false) ∧
    (∀ sv ∈ (nodeDisconnected n u st).services, sv.nodeId ≠ n) ∧
    (∀ a e, getActionEndpoints a (nodeDisconnected n u st) = some e →
      ∀ ep ∈ e.endpoints, ep.nodeId ≠ n) ∧
    (nodeDisconnected n u st).emitted = st.emitted ++ [⟨"$node.disconnected", n, u⟩] := by
  have hid : node.id = n := by simpa using List.find?_some hf
  have hfired := nodeDisconnected_fired n u st node hf hav
  refine ⟨?_, ?_, ?_, ?_⟩
  · rw [hfired]
    exact marked_nodes_unavailable st.nodes n
  · rw [hfired]
    dsimp only
    intro sv hsv
    have := (List.mem_filter.mp hsv).2
    simp only [Bool.not_eq_true', beq_eq_false_iff_ne] at this
    rw [hid] at this
    exact this
  · intro a e he ep hep
    unfold getActionEndpoints at he
    have hmem := List.mem_of_find?_eq_some he
    rw [hfired] at hmem
    dsimp only at hmem
    rcases List.mem_map.mp hmem with ⟨e0, _, rfl⟩
    have := (List.mem_filter.mp hep).2
    simp only [Bool.not_eq_true', beq_eq_false_iff_ne] at this
    rw [hid] at this
    exact this
  · rw [hfired, hid]

/-- Witness for C3 at a concrete input: node `A` announces the `math`
service and is then disconnected unexpectedly. -/
theorem nodeDisconnected_cascade_witness :
    ((nodesProcessNodeInfo ⟨"A", [svcMath]⟩ (initRegistry lnW)).1.nodes.find?
        (fun x => x.id == "A") = some ⟨"A", true, false⟩) ∧
    (∀ m ∈ (nodeDisconnected "A" true
        (nodesProcessNodeInfo ⟨"A", [svcMath]⟩ (initRegistry lnW)).1).nodes,
      m.id = "A" → m.available = false) ∧
    (nodeDisconnected "A" true
        (nodesProcessNodeInfo ⟨"A", [svcMath]⟩ (initRegistry lnW)).1).emitted =
      (nodesProcessNodeInfo ⟨"A", [svcMath]⟩ (initRegistry lnW)).1.emitted ++
        [⟨"$node.disconnected", "A", true⟩] := by
  have hf : (nodesProcessNodeInfo ⟨"A", [svcMath]⟩ (initRegistry lnW)).1.nodes.find?
      (fun x => x.id == "A") = some ⟨"A", true, false⟩ := by decide
  have hc := nodeDisconnected_cascade "A" true
    (nodesProcessNodeInfo ⟨"A", [svcMath]⟩ (initRegistry lnW)).1 ⟨"A", true, false⟩ hf rfl
  exact ⟨hf, hc.1, hc.2.2.2⟩

/-- Counterexample for C4 at a concrete input: node `A` is brand new (the
catalog does not know it), yet the registry's `processNodeInfo` returns no
value at all — the body forwards to the node catalog without a `return`. -/
theorem processNodeInfo_no_return_counterexample :
    (processNodeInfo ⟨"A", [svcMath]⟩ (initRegistry lnW)).2 = none ∧
    (initRegistry lnW).nodes.find? (fun m => m.id == "A") = none ∧
    (nodesProcessNodeInfo ⟨"A", [svcMath]⟩ (initRegistry lnW)).2 = true := by
  refine ⟨rfl, by decide, by decide⟩

/-- C4 as amended: the registry's `processNodeInfo` merely forwards the
payload to the node catalog and itself evaluates to `undefined`; the node
catalog's `processNodeInfo` is the operation that reports whether the node
was previously unknown — it returns true exactly when the sender is absent
from the node catalog. -/
theorem processNodeInfo_forwards (p : InfoPayload) (st : RegistryState) :
    processNodeInfo p st = ((nodesProcessNodeInfo p st).1, none) ∧
    ((nodesProcessNodeInfo p st).2 = true ↔
      st.nodes.find? (fun m => m.id == p.sender) = none) := by
  constructor
  · rfl
  · unfold nodesProcessNodeInfo
    split
    next hf => simp [hf]
    next node hf => simp [hf]

theorem matchKey_eq_true {s : ServiceItem} {nm : String} {v : Option Nat}
    {nid : String} :
    s.matchKey nm v nid = true ↔ (s.name = nm ∧ s.version = v ∧ s.nodeId = nid) := by
  simp [ServiceItem.matchKey, and_assoc]

theorem servicesUnique_map_key {f : ServiceItem → ServiceItem}
    (hf : ∀ s, (f s).name = s.name ∧ (f s).version = s.version ∧ (f s).nodeId = s.nodeId)
    {l : List ServiceItem} (h : servicesUnique l) : servicesUnique (l.map f) := by
  rw [servicesUnique, List.pairwise_map]
  refine h.imp ?_
  intro a b hab hk
  exact hab ⟨by rw [← (hf a).1, ← (hf b).1, hk.1],
    by rw [← (hf a).2.1, ← (hf b).2.1, hk.2.1],
    by rw [← (hf a).2.2, ← (hf b).2.2, hk.2.2]⟩

theorem servicesUnique_filter (p : ServiceItem → Bool) {l : List ServiceItem}
    (h : servicesUnique l) : servicesUnique (l.filter p) :=
  List.Pairwise.sublist (List.filter_sublist l) h

theorem servicesUnique_append_fresh {l : List ServiceItem} {item : ServiceItem}
    (h : servicesUnique l)
    (hfresh : ∀ s ∈ l, ¬(s.name = item.name ∧ s.version = item.version ∧ s.nodeId = item.nodeId)) :
    servicesUnique (l ++ [item]) := by
  rw [servicesUnique, List.pairwise_append]
  refine ⟨h, List.pairwise_singleton _ _, ?_⟩
  intro a ha b hb
  rw [List.mem_singleton] at hb
  subst hb
  exact hfresh a ha

theorem entryNodesUnique_entryAdd (node : Node) (snm : String) (sv : Option Nat)
    (a : ActionDesc) {e : EndpointList} (h : entryNodesUnique e) :
    entryNodesUnique (entryAdd node snm sv a e) := by
  unfold entryAdd
  split
  next hany =>
    rw [entryNodesUnique]
    dsimp only
    rw [List.pairwise_map]
    refine h.imp ?_
    intro p q hpq
    have hp : (if p.nodeId == node.id then
        { p with serviceName := snm, serviceVersion := sv, action := a }
      else p).nodeId = p.nodeId := by split <;> rfl
    have hq : (if q.nodeId == node.id then
        { q with serviceName := snm, serviceVersion := sv, action := a }
      else q).nodeId = q.nodeId := by split <;> rfl
    rw [hp, hq]
    exact hpq
  next hany =>
    rw [entryNodesUnique]
    dsimp only
    rw [List.pairwise_append]
    refine ⟨h, List.pairwise_singleton _ _, ?_⟩
    intro p hp q hq
    rw [List.mem_singleton] at hq
    subst hq
    have hfalse : e.endpoints.any (fun ep => ep.nodeId == node.id) = false := by
      simpa using hany
    have := List.any_eq_false.mp hfalse p hp
    simpa [newEndpoint] using this

theorem entryAdd_name (node : Node) (snm : String) (sv : Option Nat)
    (a : ActionDesc) (e : EndpointList) : (entryAdd node snm sv a e).name = e.name := by
  unfold entryAdd
  split <;> rfl

theorem actionsUnique_map_shrink {f : EndpointList → EndpointList}
    (hname : ∀ e, (f e).name = e.name)
    (hsub : ∀ e, (f e).endpoints.Sublist e.endpoints)
    {l : List EndpointList} (h : actionsUnique l) : actionsUnique (l.map f) := by
  constructor
  · rw [List.pairwise_map]
    refine h.1.imp ?_
    intro a b hab
    rw [hname a, hname b]
    exact hab
  · intro e he
    rcases List.mem_map.mp he with ⟨e0, he0, rfl⟩
    exact List.Pairwise.sublist (hsub e0) (h.2 e0 he0)

theorem actionsUnique_actionsAdd (node : Node) (snm : String) (sv : Option Nat)
    (a : ActionDesc) {st : RegistryState} (h : actionsUnique st.actions) :
    actionsUnique (actionsAdd node snm sv a st).actions := by
  unfold actionsAdd
  split
  next hex =>
    dsimp only
    constructor
    · rw [List.pairwise_map]
      refine h.1.imp ?_
      intro x y hxy
      have hx : (if x.name == a.name then entryAdd node snm sv a x else x).name = x.name := by
        split
        · exact entryAdd_name node snm sv a x
        · rfl
      have hy : (if y.name == a.name then entryAdd node snm sv a y else y).name = y.name := by
        split
        · exact entryAdd_name node snm sv a y
        · rfl
      rw [hx, hy]
      exact hxy
    · intro e he
      rcases List.mem_map.mp he with ⟨e0, he0, rfl⟩
      by_cases hn : (e0.name == a.name) = true
      · rw [if_pos hn]
        exact entryNodesUnique_entryAdd node snm sv a (h.2 e0 he0)
      · rw [if_neg hn]
        exact h.2 e0 he0
  next hex =>
    dsimp only
    constructor
    · rw [List.pairwise_append]
      refine ⟨h.1, List.pairwise_singleton _ _, ?_⟩
      intro x hx y hy
      rw [List.mem_singleton] at hy
      subst hy
      have hfalse : st.actions.any (fun e => e.name == a.name) = false := by
        simpa using hex
      have := List.any_eq_false.mp hfalse x hx
      simpa using this
    · intro e he
      rcases List.mem_append.mp he with he0 | he0
      · exact h.2 e he0
      · rw [List.mem_singleton] at he0
        subst he0
        exact List.pairwise_singleton _ _

theorem actionsAdd_services (node : Node) (snm : String) (sv : Option Nat)
    (a : ActionDesc) (st : RegistryState) :
    (actionsAdd node snm sv a st).services = st.services := by
  unfold actionsAdd
  split <;> rfl

theorem AU_servicesAdd (node : Node) (nm : String) (v : Option Nat)
    (settings : Nat) {st : RegistryState} (h : actionsUnique st.actions) :
    actionsUnique (servicesAdd node nm v settings st).actions := h

theorem AU_serviceUpdate (nm : String) (v : Option Nat) (nid : String)
    (settings : Nat) {st : RegistryState} (h : actionsUnique st.actions) :
    actionsUnique (serviceUpdate nm v nid settings st).actions := h

theorem AU_serviceAddAction (nm : String) (v : Option Nat) (nid : String)
    (a : ActionDesc) {st : RegistryState} (h : actionsUnique st.actions) :
    actionsUnique (serviceAddAction nm v nid a st).actions := h

theorem AU_actionsRemove (nm : String) (nid : String) {st : RegistryState}
    (h : actionsUnique st.actions) : actionsUnique (actionsRemove nm nid st).actions := by
  refine actionsUnique_map_shrink ?_ ?_ h
  · intro e; dsimp only; split <;> rfl
  · intro e
    dsimp only
    split
    · exact List.filter_sublist e.endpoints
    · exact List.Sublist.refl e.endpoints

theorem AU_removeEndpointsOfService (nm : String) (v : Option Nat)
    (nid : String) {st : RegistryState} (h : actionsUnique st.actions) :
    actionsUnique (removeEndpointsOfService nm v nid st).actions := by
  refine actionsUnique_map_shrink ?_ ?_ h
  · intro e; rfl
  · intro e; exact List.filter_sublist e.endpoints

theorem AU_servicesRemove (nm : String) (v : Option Nat) (nid : String)
    {st : RegistryState} (h : actionsUnique st.actions) :
    actionsUnique (servicesRemove nm v nid st).actions := by
  unfold servicesRemove
  split
  · exact h
  · exact AU_removeEndpointsOfService nm v nid h

theorem AU_removeAllByNodeID (nid : String) {st : RegistryState}
    (h : actionsUnique st.actions) : actionsUnique (removeAllByNodeID nid st).actions := by
  refine actionsUnique_map_shrink ?_ ?_ h
  · intro e; rfl
  · intro e; exact List.filter_sublist e.endpoints

theorem AU_registerActions (node : Node) (snm : String) (sv : Option Nat) :
    ∀ (acts : List ActionDesc) {st : RegistryState},
      actionsUnique st.actions → actionsUnique (registerActions node snm sv acts st).actions := by
  intro acts
  induction acts with
  | nil => intro st h; exact h
  | cons a t ih =>
    intro st h
    exact ih (AU_serviceAddAction snm sv node.id a (actionsUnique_actionsAdd node snm sv a h))

theorem AU_foldl_unregisterAction (node : Node) (p : ActionDesc → Bool) :
    ∀ (l : List ActionDesc) {st : RegistryState},
      actionsUnique st.actions →
      actionsUnique ((l.foldl (fun s a => if p a then s else unregisterAction node a.name s) st)).actions := by
  intro l
  induction l with
  | nil => intro st h; exact h
  | cons a t ih =>
    intro st h
    refine ih ?_
    dsimp only
    split
    · exact h
    · exact AU_actionsRemove a.name node.id h

theorem AU_registerServiceOne (node : Node) (svc : ServiceDesc)
    {st : RegistryState} (h : actionsUnique st.actions) :
    actionsUnique (registerServiceOne node svc st).actions := by
  unfold registerServiceOne
  split
  · exact AU_registerActions node svc.name svc.version svc.actions
      (AU_servicesAdd node svc.name svc.version svc.settings h)
  · exact AU_foldl_unregisterAction node _ _
      (AU_registerActions node svc.name svc.version svc.actions
        (AU_serviceUpdate svc.name svc.version node.id svc.settings h))

theorem AU_foldl_registerServiceOne (node : Node) :
    ∀ (l : List ServiceDesc) {st : RegistryState},
      actionsUnique st.actions →
      actionsUnique ((l.foldl (fun s svc => registerServiceOne node svc s) st)).actions := by
  intro l
  induction l with
  | nil => intro st h; exact h
  | cons svc t ih =>
    intro st h
    exact ih (AU_registerServiceOne node svc h)

theorem AU_reconcileRemove (node : Node) (serviceList : List ServiceDesc)
    {st : RegistryState} (h : actionsUnique st.actions) :
    actionsUnique (reconcileRemove node serviceList st).actions := by
  unfold reconcileRemove
  generalize st.services = snapshot
  induction snapshot generalizing st with
  | nil => exact h
  | cons sv t ih =>
    refine ih ?_
    dsimp only
    split
    · exact AU_servicesRemove sv.name sv.version node.id h
    · exact h

theorem AU_registerServices (node : Node) (serviceList : List ServiceDesc)
    {st : RegistryState} (h : actionsUnique st.actions) :
    actionsUnique (registerServices node serviceList st).actions :=
  AU_reconcileRemove node serviceList (AU_foldl_registerServiceOne node serviceList h)

theorem AU_registerLocalService (svc : ServiceDesc) {st : RegistryState}
    (h : actionsUnique st.actions) :
    actionsUnique (registerLocalService svc st).actions :=
  AU_registerActions st.localNode svc.name svc.version svc.actions
    (AU_servicesAdd st.localNode svc.name svc.version svc.settings h)

theorem AU_nodeDisconnected (n : String) (u : Bool) {st : RegistryState}
    (h : actionsUnique st.actions) : actionsUnique (nodeDisconnected n u st).actions := by
  cases hf : st.nodes.find? (fun x => x.id == n) with
  | none =>
    have h0 : nodeDisconnected n u st = st := by
      unfold nodeDisconnected; rw [hf]
    rw [h0]; exact h
  | some node =>
    by_cases hav : node.available = true
    · rw [nodeDisconnected_fired n u st node hf hav]
      refine actionsUnique_map_shrink ?_ ?_ h
      · intro e; rfl
      · intro e; exact List.filter_sublist e.endpoints
    · have hav' : node.available = false := by simpa using hav
      have h0 : nodeDisconnected n u st = st := by
        unfold nodeDisconnected; rw [hf]; dsimp only; rw [hav']; simp
      rw [h0]; exact h

theorem SU_servicesAdd_fresh (node : Node) (nm : String) (v : Option Nat)
    (settings : Nat) {st : RegistryState} (h : servicesUnique st.services)
    (hfresh : servicesGet nm v node.id st = none) :
    servicesUnique (servicesAdd node nm v settings st).services := by
  refine servicesUnique_append_fresh h ?_
  intro s hs hk
  have hnone := List.find?_eq_none.mp hfresh s hs
  exact hnone (matchKey_eq_true.mpr ⟨hk.1, hk.2.1, hk.2.2⟩)

theorem SU_serviceUpdate (nm : String) (v : Option Nat) (nid : String)
    (settings : Nat) {st : RegistryState} (h : servicesUnique st.services) :
    servicesUnique (serviceUpdate nm v nid settings st).services := by
  refine servicesUnique_map_key ?_ h
  intro s
  dsimp only
  split <;> exact ⟨rfl, rfl, rfl⟩

theorem SU_serviceAddAction (nm : String) (v : Option Nat) (nid : String)
    (a : ActionDesc) {st : RegistryState} (h : servicesUnique st.services) :
    servicesUnique (serviceAddAction nm v nid a st).services := by
  refine servicesUnique_map_key ?_ h
  intro s
  dsimp only
  split <;> exact ⟨rfl, rfl, rfl⟩

theorem SU_actionsAdd (node : Node) (snm : String) (sv : Option Nat)
    (a : ActionDesc) {st : RegistryState} (h : servicesUnique st.services) :
    servicesUnique (actionsAdd node snm sv a st).services := by
  rw [actionsAdd_services]
  exact h

theorem SU_actionsRemove (nm : String) (nid : String) {st : RegistryState}
    (h : servicesUnique st.services) :
    servicesUnique (actionsRemove nm nid st).services := h

theorem SU_servicesRemove (nm : String) (v : Option Nat) (nid : String)
    {st : RegistryState} (h : servicesUnique st.services) :
    servicesUnique (servicesRemove nm v nid st).services := by
  unfold servicesRemove
  split
  · exact h
  · exact servicesUnique_filter _ h

theorem SU_removeAllByNodeID (nid : String) {st : RegistryState}
    (h : servicesUnique st.services) :
    servicesUnique (removeAllByNodeID nid st).services :=
  servicesUnique_filter _ h

theorem SU_registerActions (node : Node) (snm : String) (sv : Option Nat) :
    ∀ (acts : List ActionDesc) {st : RegistryState},
      servicesUnique st.services →
      servicesUnique (registerActions node snm sv acts st).services := by
  intro acts
  induction acts with
  | nil => intro st h; exact h
  | cons a t ih =>
    intro st h
    exact ih (SU_serviceAddAction snm sv node.id a (SU_actionsAdd node snm sv a h))

theorem SU_foldl_unregisterAction (node : Node) (p : ActionDesc → Bool) :
    ∀ (l : List ActionDesc) {st : RegistryState},
      servicesUnique st.services →
      servicesUnique ((l.foldl (fun s a => if p a then s else unregisterAction node a.name s) st)).services := by
  intro l
  induction l with
  | nil => intro st h; exact h
  | cons a t ih =>
    intro st h
    refine ih ?_
    dsimp only
    split
    · exact h
    · exact SU_actionsRemove a.name node.id h

theorem SU_registerServiceOne (node : Node) (svc : ServiceDesc)
    {st : RegistryState} (h : servicesUnique st.services) :
    servicesUnique (registerServiceOne node svc st).services := by
  unfold registerServiceOne
  split
  next hfresh =>
    exact SU_registerActions node svc.name svc.version svc.actions
      (SU_servicesAdd_fresh node svc.name svc.version svc.settings h hfresh)
  next service hfound =>
    exact SU_foldl_unregisterAction node _ _
      (SU_registerActions node svc.name svc.version svc.actions
        (SU_serviceUpdate svc.name svc.version node.id svc.settings h))

theorem SU_foldl_registerServiceOne (node : Node) :
    ∀ (l : List ServiceDesc) {st : RegistryState},
      servicesUnique st.services →
      servicesUnique ((l.foldl (fun s svc => registerServiceOne node svc s) st)).services := by
  intro l
  induction l with
  | nil => intro st h; exact h
  | cons svc t ih =>
    intro st h
    exact ih (SU_registerServiceOne node svc h)

theorem SU_reconcileRemove (node : Node) (serviceList : List ServiceDesc)
    {st : RegistryState} (h : servicesUnique st.services) :
    servicesUnique (reconcileRemove node serviceList st).services := by
  unfold reconcileRemove
  generalize st.services = snapshot
  induction snapshot generalizing st with
  | nil => exact h
  | cons sv t ih =>
    refine ih ?_
    dsimp only
    split
    · exact SU_servicesRemove sv.name sv.version node.id h
    · exact h

theorem SU_registerServices (node : Node) (serviceList : List ServiceDesc)
    {st : RegistryState} (h : servicesUnique st.services) :
    servicesUnique (registerServices node serviceList st).services :=
  SU_reconcileRemove node serviceList (SU_foldl_registerServiceOne node serviceList h)

theorem SU_registerLocalService_fresh (svc : ServiceDesc) {st : RegistryState}
    (h : servicesUnique st.services)
    (hfresh : servicesGet svc.name svc.version st.localNode.id st = none) :
    servicesUnique (registerLocalService svc st).services :=
  SU_registerActions st.localNode svc.name svc.version svc.actions
    (SU_servicesAdd_fresh st.localNode svc.name svc.version svc.settings h hfresh)

theorem SU_nodeDisconnected (n : String) (u : Bool) {st : RegistryState}
    (h : servicesUnique st.services) :
    servicesUnique (nodeDisconnected n u st).services := by
  cases hf : st.nodes.find? (fun x => x.id == n) with
  | none =>
    have h0 : nodeDisconnected n u st = st := by
      unfold nodeDisconnected; rw [hf]
    rw [h0]; exact h
  | some node =>
    by_cases hav : node.available = true
    · rw [nodeDisconnected_fired n u st node hf hav]
      exact servicesUnique_filter _ h
    · have hav' : node.available = false := by simpa using hav
      have h0 : nodeDisconnected n u st = st := by
        unfold nodeDisconnected; rw [hf]; dsimp only; rw [hav']; simp
      rw [h0]; exact h

/-- C7 as amended: after any sequence of the five registry operations the
action catalog keeps at most one endpoint per node id per action name; and
the service catalog keeps at most one entry per `(name, version, nodeId)`
provided every `registerLocalService` call registers a `(name, version)`
not already stored for the local node — the registry performs no such check
itself, and without the proviso the service catalog can hold duplicates
(see the counterexample). -/
theorem catalog_uniqueness (st : RegistryState) :
    (ReachAny st → actionsUnique st.actions) ∧
    (ReachFresh st → servicesUnique st.services ∧ actionsUnique st.actions) := by
  constructor
  · intro h
    induction h with
    | init ln => exact ⟨List.Pairwise.nil, by intro e he; cases he⟩
    | regLocal svc st _ ih => exact AU_registerLocalService svc ih
    | regServices node L st _ ih => exact AU_registerServices node L ih
    | disconnect n u st _ ih => exact AU_nodeDisconnected n u ih
    | unregService nm v nid st _ ih => exact AU_servicesRemove nm v nid ih
    | unregAction node nm st _ ih => exact AU_actionsRemove nm node.id ih
  · intro h
    induction h with
    | init ln =>
      exact ⟨List.Pairwise.nil, List.Pairwise.nil, by intro e he; cases he⟩
    | regLocal svc st _ hfresh ih =>
      exact ⟨SU_registerLocalService_fresh svc ih.1 hfresh, AU_registerLocalService svc ih.2⟩
    | regServices node L st _ ih =>
      exact ⟨SU_registerServices node L ih.1, AU_registerServices node L ih.2⟩
    | disconnect n u st _ ih =>
      exact ⟨SU_nodeDisconnected n u ih.1, AU_nodeDisconnected n u ih.2⟩
    | unregService nm v nid st _ ih =>
      exact ⟨SU_servicesRemove nm v nid ih.1, AU_servicesRemove nm v nid ih.2⟩
    | unregAction node nm st _ ih =>
      exact ⟨SU_actionsRemove nm node.id ih.1, AU_actionsRemove nm node.id ih.2⟩

/-- Witness for C7 at a concrete input: after node `A` registers the `math`
service, both uniqueness properties hold. -/
theorem catalog_uniqueness_witness :
    actionsUnique (registerServices nodeA [svcMath] (initRegistry lnW)).actions ∧
    servicesUnique (registerServices nodeA [svcMath] (initRegistry lnW)).services := by
  have h := catalog_uniqueness (registerServices nodeA [svcMath] (initRegistry lnW))
  have hr : ReachAny (registerServices nodeA [svcMath] (initRegistry lnW)) :=
    ReachAny.regServices nodeA [svcMath] _ (ReachAny.init lnW)
  have hfr : ReachFresh (registerServices nodeA [svcMath] (initRegistry lnW)) :=
    ReachFresh.regServices nodeA [svcMath] _ (ReachFresh.init lnW)
  exact ⟨h.1 hr, (h.2 hfr).1⟩

/-- Counterexample for C7 at a concrete input: `registerLocalService` adds
unconditionally (registry.js line 60 calls `services.add` without a lookup),
so registering the same local service twice stores two service entries with
the identical `(name, version, nodeId)` triple. -/
theorem registerLocalService_duplicate_counterexample :
    ((registerLocalService svcMath (registerLocalService svcMath (initRegistry lnW))).services.map
      (fun s => (s.name, s.version, s.nodeId))) =
      [("math", none, "local-1"), ("math", none, "local-1")] ∧
    ¬ servicesUnique
      (registerLocalService svcMath (registerLocalService svcMath (initRegistry lnW))).services := by
  constructor
  · decide
  · unfold servicesUnique
    decide

theorem find?_append_some {α : Type} {p : α → Bool} {l l' : List α} {a : α}
    (h : l.find? p = some a) : (l ++ l').find? p = some a := by
  induction l with
  | nil => cases h
  | cons b t ih =>
    rw [List.cons_append]
    cases hp : p b with
    | true =>
      rw [List.find?_cons_of_pos _ hp] at h
      rw [List.find?_cons_of_pos _ hp]
      exact h
    | false =>
      have hp' : ¬ p b = true := by simp [hp]
      rw [List.find?_cons_of_neg _ hp'] at h
      rw [List.find?_cons_of_neg _ hp']
      exact ih h

theorem find?_map_pred {α : Type} {p : α → Bool} {f : α → α}
    (hf : ∀ a', p (f a') = p a') {l : List α} {a : α}
    (h : l.find? p = some a) : (l.map f).find? p = some (f a) := by
  rw [List.find?_map]
  have hcomp : (p ∘ f) = p := funext hf
  rw [hcomp, h, Option.map_some']

theorem any_name_upsert {l : List ActionDesc} {x : String}
    (h : l.any (fun b => b.name == x) = true) (a : ActionDesc) :
    (upsertAction l a).any (fun b => b.name == x) = true := by
  rcases List.any_eq_true.mp h with ⟨b0, hb0, hbx⟩
  unfold upsertAction
  split
  · apply List.any_eq_true.mpr
    by_cases hbn : (b0.name == a.name) = true
    · refine ⟨a, ?_, ?_⟩
      · exact List.mem_map.mpr ⟨b0, hb0, by rw [if_pos hbn]⟩
      · have h1 : b0.name = a.name := by simpa using hbn
        have h2 : b0.name = x := by simpa using hbx
        simp [← h1, h2]
    · refine ⟨b0, ?_, hbx⟩
      exact List.mem_map.mpr ⟨b0, hb0, by rw [if_neg hbn]⟩
  · exact List.any_eq_true.mpr ⟨b0, List.mem_append_left _ hb0, hbx⟩

theorem FWA_servicesAdd (node : Node) (nm' : String) (v' : Option Nat)
    (settings : Nat) {nm : String} {v : Option Nat} {nid x : String}
    {st : RegistryState} (h : foundWithAction nm v nid x st) :
    foundWithAction nm v nid x (servicesAdd node nm' v' settings st) := by
  rcases h with ⟨T, hT, hx⟩
  exact ⟨T, find?_append_some hT, hx⟩

theorem FWA_serviceUpdate (nm' : String) (v' : Option Nat) (nid' : String)
    (settings : Nat) {nm : String} {v : Option Nat} {nid x : String}
    {st : RegistryState} (h : foundWithAction nm v nid x st) :
    foundWithAction nm v nid x (serviceUpdate nm' v' nid' settings st) := by
  rcases h with ⟨T, hT, hx⟩
  refine ⟨if T.matchKey nm' v' nid' then { T with settings := settings } else T, ?_, ?_⟩
  · refine find?_map_pred ?_ hT
    intro s
    dsimp only
    split <;> simp [ServiceItem.matchKey]
  · split <;> exact hx

theorem FWA_serviceAddAction (nm' : String) (v' : Option Nat) (nid' : String)
    (a : ActionDesc) {nm : String} {v : Option Nat} {nid x : String}
    {st : RegistryState} (h : foundWithAction nm v nid x st) :
    foundWithAction nm v nid x (serviceAddAction nm' v' nid' a st) := by
  rcases h with ⟨T, hT, hx⟩
  refine ⟨if T.matchKey nm' v' nid' then { T with actions := upsertAction T.actions a } else T, ?_, ?_⟩
  · refine find?_map_pred ?_ hT
    intro s
    dsimp only
    split <;> simp [ServiceItem.matchKey]
  · split
    · exact any_name_upsert hx a
    · exact hx

theorem FWA_actionsAdd (node : Node) (snm : String) (sv : Option Nat)
    (a : ActionDesc) {nm : String} {v : Option Nat} {nid x : String}
    {st : RegistryState} (h : foundWithAction nm v nid x st) :
    foundWithAction nm v nid x (actionsAdd node snm sv a st) := by
  rcases h with ⟨T, hT, hx⟩
  refine ⟨T, ?_, hx⟩
  show (actionsAdd node snm sv a st).services.find? _ = some T
  rw [actionsAdd_services]
  exact hT

theorem FWA_actionsRemove (nm' : String) (nid' : String) {nm : String}
    {v : Option Nat} {nid x : String} {st : RegistryState}
    (h : foundWithAction nm v nid x st) :
    foundWithAction nm v nid x (actionsRemove nm' nid' st) := h

theorem FWA_registerActions (node : Node) (snm : String) (sv : Option Nat) :
    ∀ (acts : List ActionDesc) {nm : String} {v : Option Nat} {nid x : String}
      {st : RegistryState}, foundWithAction nm v nid x st →
      foundWithAction nm v nid x (registerActions node snm sv acts st) := by
  intro acts
  induction acts with
  | nil => intro nm v nid x st h; exact h
  | cons a t ih =>
    intro nm v nid x st h
    exact ih (FWA_serviceAddAction snm sv node.id a (FWA_actionsAdd node snm sv a h))

theorem FWA_foldl_unregisterAction (node : Node) (p : ActionDesc → Bool) :
    ∀ (l : List ActionDesc) {nm : String} {v : Option Nat} {nid x : String}
      {st : RegistryState}, foundWithAction nm v nid x st →
      foundWithAction nm v nid x
        (l.foldl (fun s a => if p a then s else unregisterAction node a.name s) st) := by
  intro l
  induction l with
  | nil => intro nm v nid x st h; exact h
  | cons a t ih =>
    intro nm v nid x st h
    refine ih ?_
    dsimp only
    split
    · exact h
    · exact FWA_actionsRemove a.name node.id h

theorem FWA_registerServiceOne (node : Node) (svc : ServiceDesc)
    {nm : String} {v : Option Nat} {nid x : String} {st : RegistryState}
    (h : foundWithAction nm v nid x st) :
    foundWithAction nm v nid x (registerServiceOne node svc st) := by
  unfold registerServiceOne
  split
  · exact FWA_registerActions node svc.name svc.version svc.actions
      (FWA_servicesAdd node svc.name svc.version svc.settings h)
  · exact FWA_foldl_unregisterAction node _ _
      (FWA_registerActions node svc.name svc.version svc.actions
        (FWA_serviceUpdate svc.name svc.version node.id svc.settings h))

theorem FWA_foldl_registerServiceOne (node : Node) :
    ∀ (l : List ServiceDesc) {nm : String} {v : Option Nat} {nid x : String}
      {st : RegistryState}, foundWithAction nm v nid x st →
      foundWithAction nm v nid x (l.foldl (fun s svc => registerServiceOne node svc s) st) := by
  intro l
  induction l with
  | nil => intro nm v nid x st h; exact h
  | cons svc t ih =>
    intro nm v nid x st h
    exact ih (FWA_registerServiceOne node svc h)

theorem noEP_actionsRemove (nm' : String) (nid' : String) {x nid : String}
    {st : RegistryState} (h : noEndpointOn x nid st) :
    noEndpointOn x nid (actionsRemove nm' nid' st) := by
  intro e he hname ep hep
  unfold actionsRemove at he
  rcases List.mem_map.mp he with ⟨e0, he0, rfl⟩
  by_cases hn : (e0.name == nm') = true
  · rw [if_pos hn] at hname hep
    exact h e0 he0 hname ep (List.mem_filter.mp hep).1
  · rw [if_neg hn] at hname hep
    exact h e0 he0 hname ep hep

theorem noEP_removeEndpointsOfService (nm' : String) (v' : Option Nat)
    (nid' : String) {x nid : String} {st : RegistryState}
    (h : noEndpointOn x nid st) :
    noEndpointOn x nid (removeEndpointsOfService nm' v' nid' st) := by
  intro e he hname ep hep
  unfold removeEndpointsOfService at he
  rcases List.mem_map.mp he with ⟨e0, he0, rfl⟩
  exact h e0 he0 hname ep (List.mem_filter.mp hep).1

theorem noEP_servicesRemove (nm' : String) (v' : Option Nat) (nid' : String)
    {x nid : String} {st : RegistryState} (h : noEndpointOn x nid st) :
    noEndpointOn x nid (servicesRemove nm' v' nid' st) := by
  unfold servicesRemove
  split
  · exact h
  · exact noEP_removeEndpointsOfService nm' v' nid' h

theorem noEP_removeAllByNodeID (nid' : String) {x nid : String}
    {st : RegistryState} (h : noEndpointOn x nid st) :
    noEndpointOn x nid (removeAllByNodeID nid' st) := by
  intro e he hname ep hep
  unfold removeAllByNodeID at he
  rcases List.mem_map.mp he with ⟨e0, he0, rfl⟩
  exact h e0 he0 hname ep (List.mem_filter.mp hep).1

theorem noEP_servicesAdd (node : Node) (nm' : String) (v' : Option Nat)
    (settings : Nat) {x nid : String} {st : RegistryState}
    (h : noEndpointOn x nid st) :
    noEndpointOn x nid (servicesAdd node nm' v' settings st) := h

theorem noEP_serviceUpdate (nm' : String) (v' : Option Nat) (nid' : String)
    (settings : Nat) {x nid : String} {st : RegistryState}
    (h : noEndpointOn x nid st) :
    noEndpointOn x nid (serviceUpdate nm' v' nid' settings st) := h

theorem noEP_serviceAddAction (nm' : String) (v' : Option Nat) (nid' : String)
    (a : ActionDesc) {x nid : String} {st : RegistryState}
    (h : noEndpointOn x nid st) :
    noEndpointOn x nid (serviceAddAction nm' v' nid' a st) := h

theorem noEP_actionsAdd_ne (node : Node) (snm : String) (sv : Option Nat)
    (a : ActionDesc) {x nid : String} (hne : a.name ≠ x) {st : RegistryState}
    (h : noEndpointOn x nid st) :
    noEndpointOn x nid (actionsAdd node snm sv a st) := by
  intro e he hname ep hep
  unfold actionsAdd at he
  split at he
  · rcases List.mem_map.mp he with ⟨e0, he0, rfl⟩
    by_cases hn : (e0.name == a.name) = true
    · have : e0.name = a.name := by simpa using hn
      rw [if_pos hn, entryAdd_name] at hname
      exact absurd (this.symm.trans hname) hne
    · rw [if_neg hn] at hname hep
      exact h e0 he0 hname ep hep
  · rcases List.mem_append.mp he with he0 | he0
    · exact h e he0 hname ep hep
    · rw [List.mem_singleton] at he0
      subst he0
      exact absurd hname hne

theorem noEP_registerActions (node : Node) (snm : String) (sv : Option Nat) :
    ∀ (acts : List ActionDesc) {x nid : String},
      (∀ b ∈ acts, b.name ≠ x) → ∀ {st : RegistryState},
      noEndpointOn x nid st →
      noEndpointOn x nid (registerActions node snm sv acts st) := by
  intro acts
  induction acts with
  | nil => intro x nid _ st h; exact h
  | cons a t ih =>
    intro x nid hall st h
    refine ih (fun b hb => hall b (List.mem_cons_of_mem a hb)) ?_
    exact noEP_serviceAddAction snm sv node.id a
      (noEP_actionsAdd_ne node snm sv a (hall a (List.mem_cons_self a t)) h)

theorem noEP_foldl_unregisterAction (node : Node) (p : ActionDesc → Bool) :
    ∀ (l : List ActionDesc) {x nid : String} {st : RegistryState},
      noEndpointOn x nid st →
      noEndpointOn x nid
        (l.foldl (fun s a => if p a then s else unregisterAction node a.name s) st) := by
  intro l
  induction l with
  | nil => intro x nid st h; exact h
  | cons a t ih =>
    intro x nid st h
    refine ih ?_
    dsimp only
    split
    · exact h
    · exact noEP_actionsRemove a.name node.id h

theorem noEP_registerServiceOne (node : Node) (svc : ServiceDesc)
    {x nid : String} (hsvc : ∀ b ∈ svc.actions, b.name ≠ x)
    {st : RegistryState} (h : noEndpointOn x nid st) :
    noEndpointOn x nid (registerServiceOne node svc st) := by
  unfold registerServiceOne
  split
  · exact noEP_registerActions node svc.name svc.version svc.actions hsvc
      (noEP_servicesAdd node svc.name svc.version svc.settings h)
  · exact noEP_foldl_unregisterAction node _ _
      (noEP_registerActions node svc.name svc.version svc.actions hsvc
        (noEP_serviceUpdate svc.name svc.version node.id svc.settings h))

theorem noEP_foldl_registerServiceOne (node : Node) :
    ∀ (l : List ServiceDesc) {x nid : String},
      (∀ s ∈ l, ∀ b ∈ s.actions, b.name ≠ x) → ∀ {st : RegistryState},
      noEndpointOn x nid st →
      noEndpointOn x nid (l.foldl (fun s svc => registerServiceOne node svc s) st) := by
  intro l
  induction l with
  | nil => intro x nid _ st h; exact h
  | cons svc t ih =>
    intro x nid hall st h
    refine ih (fun s hs => hall s (List.mem_cons_of_mem svc hs)) ?_
    exact noEP_registerServiceOne node svc (hall svc (List.mem_cons_self svc t)) h

theorem noEP_reconcileRemove (node : Node) (serviceList : List ServiceDesc)
    {x nid : String} {st : RegistryState} (h : noEndpointOn x nid st) :
    noEndpointOn x nid (reconcileRemove node serviceList st) := by
  unfold reconcileRemove
  generalize st.services = snapshot
  induction snapshot generalizing st with
  | nil => exact h
  | cons sv t ih =>
    refine ih ?_
    dsimp only
    split
    · exact noEP_servicesRemove sv.name sv.version node.id h
    · exact h

theorem noEP_actionsRemove_self (x nid : String) (st : RegistryState) :
    noEndpointOn x nid (actionsRemove x nid st) := by
  intro e he hname ep hep
  unfold actionsRemove at he
  rcases List.mem_map.mp he with ⟨e0, he0, rfl⟩
  by_cases hn : (e0.name == x) = true
  · rw [if_pos hn] at hep
    have := (List.mem_filter.mp hep).2
    simpa using this
  · rw [if_neg hn] at hname
    exact absurd hname (by simpa using hn)

theorem registerServiceOne_found (node : Node) (svc : ServiceDesc)
    {st : RegistryState} {T : ServiceItem}
    (h : servicesGet svc.name svc.version node.id st = some T) :
    registerServiceOne node svc st =
      T.actions.foldl (fun s a =>
          if svc.actions.any (fun b => b.name == a.name) then s
          else unregisterAction node a.name s)
        (registerActions node svc.name svc.version svc.actions
          (serviceUpdate svc.name svc.version node.id svc.settings st)) := by
  unfold registerServiceOne
  rw [h]

theorem noEP_foldl_unregisterAction_establish (node : Node)
    (p : ActionDesc → Bool) (x : String) :
    ∀ (l : List ActionDesc) (st : RegistryState),
      (∃ a ∈ l, a.name = x ∧ p a = false) →
      noEndpointOn x node.id
        (l.foldl (fun s a => if p a then s else unregisterAction node a.name s) st) := by
  intro l
  induction l with
  | nil =>
    rintro st ⟨a, ha, _⟩
    cases ha
  | cons a t ih =>
    rintro st ⟨a', ha', hx', hp'⟩
    rcases List.mem_cons.mp ha' with rfl | hmem
    · show noEndpointOn x node.id
        (t.foldl _ (if p a' then st else unregisterAction node a'.name st))
      rw [if_neg (by simp [hp'])]
      refine noEP_foldl_unregisterAction node p t ?_
      rw [hx']
      exact noEP_actionsRemove_self x node.id st
    · exact ih _ ⟨a', hmem, hx', hp'⟩

/-- C6: when `registerServices` receives an updated descriptor for an
already-stored service of the node, every action name that the stored
service's map carries but the new descriptor omits — and that no descriptor
of the list provides — ends up with no endpoint for the node in the action
catalog. -/
theorem registerServices_removes_omitted (node : Node) (L : List ServiceDesc)
    (st : RegistryState) (svc : ServiceDesc) (x : String)
    (hsvc : svc ∈ L)
    (hT : foundWithAction svc.name svc.version node.id x st)
    (hnot : ∀ s ∈ L, ∀ b ∈ s.actions, b.name ≠ x) :
    noEndpointOn x node.id (registerServices node L st) := by
  unfold registerServices
  apply noEP_reconcileRemove
  rcases List.append_of_mem hsvc with ⟨P, R, rfl⟩
  rw [List.foldl_append, List.foldl_cons]
  have hFWA : foundWithAction svc.name svc.version node.id x
      (P.foldl (fun s svc' => registerServiceOne node svc' s) st) :=
    FWA_foldl_registerServiceOne node P hT
  have hestab : noEndpointOn x node.id
      (registerServiceOne node svc (P.foldl (fun s svc' => registerServiceOne node svc' s) st)) := by
    rcases hFWA with ⟨T', hT', hxT'⟩
    rw [registerServiceOne_found node svc hT']
    apply noEP_foldl_unregisterAction_establish
    rcases List.any_eq_true.mp hxT' with ⟨a0, ha0, hax⟩
    have hax' : a0.name = x := by simpa using hax
    refine ⟨a0, ha0, hax', ?_⟩
    apply List.any_eq_false.mpr
    intro b hb
    have hbx := hnot svc (List.mem_append_right P (List.mem_cons_self svc R)) b hb
    rw [hax']
    simpa using hbx
  refine noEP_foldl_registerServiceOne node R ?_ hestab
  intro s hs
  exact hnot s (List.mem_append_right P (List.mem_cons_of_mem svc hs))

/-- Witness for C6 at a concrete input: node `A` first registers `math`
with `math.add` and `math.sub`, then re-registers `math` with only
`math.add`; afterwards `math.sub` has no endpoint on `A`. -/
theorem registerServices_removes_omitted_witness :
    (svcMathOnlyAdd ∈ [svcMathOnlyAdd]) ∧
    foundWithAction "math" none "A" "math.sub"
      (registerServices nodeA [svcMath] (initRegistry lnW)) ∧
    noEndpointOn "math.sub" "A"
      (registerServices nodeA [svcMathOnlyAdd]
        (registerServices nodeA [svcMath] (initRegistry lnW))) := by
  have h1 : svcMathOnlyAdd ∈ [svcMathOnlyAdd] := List.mem_singleton.mpr rfl
  have h2 : foundWithAction "math" none "A" "math.sub"
      (registerServices nodeA [svcMath] (initRegistry lnW)) := by
    refine ⟨⟨"math", none, "A", 7, [actAdd, actSub]⟩, by decide, by decide⟩
  have h3 : ∀ s ∈ [svcMathOnlyAdd], ∀ b ∈ s.actions, b.name ≠ "math.sub" := by
    decide
  exact ⟨h1, h2, registerServices_removes_omitted nodeA [svcMathOnlyAdd]
    (registerServices nodeA [svcMath] (initRegistry lnW)) svcMathOnlyAdd "math.sub" h1 h2 h3⟩

theorem find?_append_none {α : Type} {p : α → Bool} {l : List α} {item : α}
    (h : l.find? p = none) (hp : p item = true) :
    (l ++ [item]).find? p = some item := by
  induction l with
  | nil => exact List.find?_cons_of_pos _ hp
  | cons b t ih =>
    cases hpb : p b with
    | true =>
      rw [List.find?_cons_of_pos _ hpb] at h
      cases h
    | false =>
      have hpb' : ¬ p b = true := by simp [hpb]
      rw [List.find?_cons_of_neg _ hpb'] at h
      rw [List.cons_append, List.find?_cons_of_neg _ hpb']
      exact ih h

theorem find?_filter_of_imp {α : Type} {p q : α → Bool}
    (himp : ∀ a, p a = true → q a = true) (l : List α) :
    (l.filter q).find? p = l.find? p := by
  induction l with
  | nil => rfl
  | cons b t ih =>
    by_cases hq : q b = true
    · rw [List.filter_cons_of_pos hq]
      cases hpb : p b with
      | true =>
        rw [List.find?_cons_of_pos _ hpb, List.find?_cons_of_pos _ hpb]
      | false =>
        have hpb' : ¬ p b = true := by simp [hpb]
        rw [List.find?_cons_of_neg _ hpb', List.find?_cons_of_neg _ hpb']
        exact ih
    · rw [List.filter_cons_of_neg (by simpa using hq)]
      have hpb' : ¬ p b = true := fun hpb => hq (himp b hpb)
      rw [List.find?_cons_of_neg _ hpb']
      exact ih

theorem any_name_upsert_self (l : List ActionDesc) (a : ActionDesc) :
    (upsertAction l a).any (fun b => b.name == a.name) = true := by
  unfold upsertAction
  split
  next hany =>
    rcases List.any_eq_true.mp hany with ⟨b0, hb0, hbn⟩
    apply List.any_eq_true.mpr
    exact ⟨a, List.mem_map.mpr ⟨b0, hb0, by rw [if_pos hbn]⟩, by simp⟩
  · apply List.any_eq_true.mpr
    exact ⟨a, List.mem_append_right _ (List.mem_singleton.mpr rfl), by simp⟩

theorem foundKey_servicesAdd_self (node : Node) (nm : String) (v : Option Nat)
    (settings : Nat) {st : RegistryState}
    (h : servicesGet nm v node.id st = none) :
    foundKey nm v node.id (servicesAdd node nm v settings st) := by
  refine ⟨⟨nm, v, node.id, settings, []⟩, ?_⟩
  exact find?_append_none h (matchKey_eq_true.mpr ⟨rfl, rfl, rfl⟩)

theorem foundKey_actionsAdd (node : Node) (snm : String) (sv : Option Nat)
    (a : ActionDesc) {nm : String} {v : Option Nat} {nid : String}
    {st : RegistryState} (h : foundKey nm v nid st) :
    foundKey nm v nid (actionsAdd node snm sv a st) := by
  rcases h with ⟨T, hT⟩
  refine ⟨T, ?_⟩
  show (actionsAdd node snm sv a st).services.find? _ = some T
  rw [actionsAdd_services]
  exact hT

theorem foundKey_serviceUpdate (nm' : String) (v' : Option Nat) (nid' : String)
    (settings : Nat) {nm : String} {v : Option Nat} {nid : String}
    {st : RegistryState} (h : foundKey nm v nid st) :
    foundKey nm v nid (serviceUpdate nm' v' nid' settings st) := by
  rcases h with ⟨T, hT⟩
  refine ⟨_, find?_map_pred ?_ hT⟩
  intro s
  dsimp only
  split <;> simp [ServiceItem.matchKey]

theorem foundKey_serviceAddAction (nm' : String) (v' : Option Nat)
    (nid' : String) (a : ActionDesc) {nm : String} {v : Option Nat}
    {nid : String} {st : RegistryState} (h : foundKey nm v nid st) :
    foundKey nm v nid (serviceAddAction nm' v' nid' a st) := by
  rcases h with ⟨T, hT⟩
  refine ⟨_, find?_map_pred ?_ hT⟩
  intro s
  dsimp only
  split <;> simp [ServiceItem.matchKey]

theorem FWA_serviceAddAction_self (nm : String) (v : Option Nat) (nid : String)
    (a : ActionDesc) {st : RegistryState} (h : foundKey nm v nid st) :
    foundWithAction nm v nid a.name (serviceAddAction nm v nid a st) := by
  rcases h with ⟨T, hT⟩
  have hT' : st.services.find? (fun s => s.matchKey nm v nid) = some T := hT
  have hkey : T.matchKey nm v nid = true := by
    have h0 := List.find?_some hT'
    simpa using h0
  refine ⟨if T.matchKey nm v nid then { T with actions := upsertAction T.actions a } else T,
    find?_map_pred ?_ hT', ?_⟩
  · intro s
    dsimp only
    split <;> simp [ServiceItem.matchKey]
  · rw [if_pos hkey]
    exact any_name_upsert_self T.actions a

theorem FWA_registerActions_self (node : Node) (nm : String) (v : Option Nat)
    {x : String} :
    ∀ (acts : List ActionDesc), (∃ a ∈ acts, a.name = x) →
      ∀ {st : RegistryState}, foundKey nm v node.id st →
      foundWithAction nm v node.id x (registerActions node nm v acts st) := by
  intro acts
  induction acts with
  | nil =>
    rintro ⟨a, ha, _⟩
    cases ha
  | cons a t ih =>
    rintro ⟨a', ha', hax⟩ st h
    show foundWithAction nm v node.id x
      (registerActions node nm v t (serviceAddAction nm v node.id a (actionsAdd node nm v a st)))
    rcases List.mem_cons.mp ha' with rfl | hmem
    · refine FWA_registerActions node nm v t ?_
      rw [← hax]
      exact FWA_serviceAddAction_self nm v node.id a' (foundKey_actionsAdd node nm v a' h)
    · exact ih ⟨a', hmem, hax⟩
        (foundKey_serviceAddAction nm v node.id a (foundKey_actionsAdd node nm v a h))

theorem registerServiceOne_notFound (node : Node) (svc : ServiceDesc)
    {st : RegistryState} (h : servicesGet svc.name svc.version node.id st = none) :
    registerServiceOne node svc st =
      registerActions node svc.name svc.version svc.actions
        (servicesAdd node svc.name svc.version svc.settings st) := by
  unfold registerServiceOne
  rw [h]

theorem FWA_registerServiceOne_self (node : Node) (svc : ServiceDesc)
    {x : String} (hx : ∃ a ∈ svc.actions, a.name = x) (st : RegistryState) :
    foundWithAction svc.name svc.version node.id x (registerServiceOne node svc st) := by
  cases hg : servicesGet svc.name svc.version node.id st with
  | none =>
    rw [registerServiceOne_notFound node svc hg]
    exact FWA_registerActions_self node svc.name svc.version svc.actions hx
      (foundKey_servicesAdd_self node svc.name svc.version svc.settings hg)
  | some T =>
    rw [registerServiceOne_found node svc hg]
    refine FWA_foldl_unregisterAction node _ _ ?_
    exact FWA_registerActions_self node svc.name svc.version svc.actions hx
      (foundKey_serviceUpdate svc.name svc.version node.id svc.settings ⟨T, hg⟩)

theorem FWA_servicesRemove_ne (nm' : String) (v' : Option Nat) (nid' : String)
    {nm : String} {v : Option Nat} {nid x : String}
    (hne : ¬(nm' = nm ∧ v' = v ∧ nid' = nid)) {st : RegistryState}
    (h : foundWithAction nm v nid x st) :
    foundWithAction nm v nid x (servicesRemove nm' v' nid' st) := by
  rcases h with ⟨T, hT, hx⟩
  unfold servicesRemove
  split
  · exact ⟨T, hT, hx⟩
  · refine ⟨T, ?_, hx⟩
    show (List.filter _ st.services).find? _ = some T
    rw [find?_filter_of_imp ?_ st.services]
    · exact hT
    · intro s hp
      have hk := matchKey_eq_true.mp hp
      simp only [Bool.not_eq_true']
      apply (Bool.not_eq_true _).mp
      intro hk'
      have hk2 := matchKey_eq_true.mp hk'
      exact hne ⟨hk2.1.symm.trans hk.1, hk2.2.1.symm.trans hk.2.1, hk2.2.2.symm.trans hk.2.2⟩

theorem FWA_reconcileRemove_kept (node : Node) (Lst : List ServiceDesc)
    {nm : String} {v : Option Nat} {x : String}
    (hkept : ∃ t ∈ Lst, nm = t.name ∧ v = t.version) {st : RegistryState}
    (h : foundWithAction nm v node.id x st) :
    foundWithAction nm v node.id x (reconcileRemove node Lst st) := by
  unfold reconcileRemove
  generalize st.services = snapshot
  induction snapshot generalizing st with
  | nil => exact h
  | cons w t ih =>
    refine ih ?_
    dsimp only
    split
    next hguard =>
      simp only [Bool.and_eq_true, Bool.not_eq_true'] at hguard
      obtain ⟨-, hany⟩ := hguard
      refine FWA_servicesRemove_ne w.name w.version node.id ?_ h
      rintro ⟨hn, hv, -⟩
      rcases hkept with ⟨tk, htk, hkn, hkv⟩
      have hany' : Lst.any (fun svc => w.name == svc.name && w.version == svc.version) = true := by
        refine List.any_eq_true.mpr ⟨tk, htk, ?_⟩
        rw [hn, hkn, hv, hkv]
        simp
      rw [hany'] at hany
      cases hany
    · exact h

theorem epOwner_servicesAdd (node : Node) (nm' : String) (v' : Option Nat)
    (settings : Nat) {x nid nm : String} {v : Option Nat} {st : RegistryState}
    (h : epOwner x nid nm v st) :
    epOwner x nid nm v (servicesAdd node nm' v' settings st) := h

theorem epOwner_serviceUpdate (nm' : String) (v' : Option Nat) (nid' : String)
    (settings : Nat) {x nid nm : String} {v : Option Nat} {st : RegistryState}
    (h : epOwner x nid nm v st) :
    epOwner x nid nm v (serviceUpdate nm' v' nid' settings st) := h

theorem epOwner_serviceAddAction (nm' : String) (v' : Option Nat)
    (nid' : String) (a : ActionDesc) {x nid nm : String} {v : Option Nat}
    {st : RegistryState} (h : epOwner x nid nm v st) :
    epOwner x nid nm v (serviceAddAction nm' v' nid' a st) := h

theorem epOwner_actionsRemove (nm' : String) (nid' : String)
    {x nid nm : String} {v : Option Nat} {st : RegistryState}
    (h : epOwner x nid nm v st) :
    epOwner x nid nm v (actionsRemove nm' nid' st) := by
  intro e he hname ep hep hnid
  unfold actionsRemove at he
  rcases List.mem_map.mp he with ⟨e0, he0, rfl⟩
  by_cases hn : (e0.name == nm') = true
  · rw [if_pos hn] at hname hep
    exact h e0 he0 hname ep (List.mem_filter.mp hep).1 hnid
  · rw [if_neg hn] at hname hep
    exact h e0 he0 hname ep hep hnid

theorem epOwner_removeEndpointsOfService (nm' : String) (v' : Option Nat)
    (nid' : String) {x nid nm : String} {v : Option Nat} {st : RegistryState}
    (h : epOwner x nid nm v st) :
    epOwner x nid nm v (removeEndpointsOfService nm' v' nid' st) := by
  intro e he hname ep hep hnid
  unfold removeEndpointsOfService at he
  rcases List.mem_map.mp he with ⟨e0, he0, rfl⟩
  exact h e0 he0 hname ep (List.mem_filter.mp hep).1 hnid

theorem epOwner_servicesRemove (nm' : String) (v' : Option Nat) (nid' : String)
    {x nid nm : String} {v : Option Nat} {st : RegistryState}
    (h : epOwner x nid nm v st) :
    epOwner x nid nm v (servicesRemove nm' v' nid' st) := by
  unfold servicesRemove
  split
  · exact h
  · exact epOwner_removeEndpointsOfService nm' v' nid' h

theorem epOwner_actionsAdd_self (node : Node) (nm : String) (v : Option Nat)
    (a : ActionDesc) {x : String} (hax : a.name = x) (st : RegistryState) :
    epOwner x node.id nm v (actionsAdd node nm v a st) := by
  intro e he hname ep hep hnid
  unfold actionsAdd at he
  split at he
  next hex =>
    rcases List.mem_map.mp he with ⟨e0, he0, rfl⟩
    by_cases hn : (e0.name == a.name) = true
    · rw [if_pos hn] at hep
      unfold entryAdd at hep
      split at hep
      next hany =>
        rcases List.mem_map.mp hep with ⟨ep0, hep0, rfl⟩
        by_cases hpn : (ep0.nodeId == node.id) = true
        · rw [if_pos hpn]
          exact ⟨rfl, rfl⟩
        · rw [if_neg hpn] at hnid ⊢
          exact absurd hnid (by simpa using hpn)
      next hany =>
        rcases List.mem_append.mp hep with hep0 | hep0
        · have hfalse : e0.endpoints.any (fun ep => ep.nodeId == node.id) = false := by
            simpa using hany
          have := List.any_eq_false.mp hfalse _ hep0
          exact absurd hnid (by simpa using this)
        · rw [List.mem_singleton] at hep0
          subst hep0
          exact ⟨rfl, rfl⟩
    · rw [if_neg hn] at hname hep
      have hbeq : (e0.name == a.name) = true := by
        rw [hname, ← hax]
        simp
      exact absurd hbeq hn
  next hex =>
    rcases List.mem_append.mp he with he0 | he0
    · have hfalse : st.actions.any (fun e => e.name == a.name) = false := by
        simpa using hex
      have := List.any_eq_false.mp hfalse e he0
      rw [hname, ← hax] at this
      simp at this
    · rw [List.mem_singleton] at he0
      subst he0
      rw [List.mem_singleton] at hep
      subst hep
      exact ⟨rfl, rfl⟩

theorem epOwner_actionsAdd_ne (node : Node) (snm : String) (sv : Option Nat)
    (a : ActionDesc) {x nid nm : String} {v : Option Nat} (hax : a.name ≠ x)
    {st : RegistryState} (h : epOwner x nid nm v st) :
    epOwner x nid nm v (actionsAdd node snm sv a st) := by
  intro e he hname ep hep hnid
  unfold actionsAdd at he
  split at he
  · rcases List.mem_map.mp he with ⟨e0, he0, rfl⟩
    by_cases hn : (e0.name == a.name) = true
    · have : e0.name = a.name := by simpa using hn
      rw [if_pos hn, entryAdd_name] at hname
      exact absurd (this.symm.trans hname) hax
    · rw [if_neg hn] at hname hep
      exact h e0 he0 hname ep hep hnid
  · rcases List.mem_append.mp he with he0 | he0
    · exact h e he0 hname ep hep hnid
    · rw [List.mem_singleton] at he0
      subst he0
      exact absurd hname hax

theorem epOwner_registerActions_keep (node : Node) (nm : String)
    (v : Option Nat) {x : String} :
    ∀ (acts : List ActionDesc) {st : RegistryState},
      epOwner x node.id nm v st →
      epOwner x node.id nm v (registerActions node nm v acts st) := by
  intro acts
  induction acts with
  | nil => intro st h; exact h
  | cons a t ih =>
    intro st h
    refine ih ?_
    by_cases hax : a.name = x
    · exact epOwner_serviceAddAction nm v node.id a
        (epOwner_actionsAdd_self node nm v a hax st)
    · exact epOwner_serviceAddAction nm v node.id a
        (epOwner_actionsAdd_ne node nm v a hax h)

theorem epOwner_registerActions_self (node : Node) (nm : String)
    (v : Option Nat) {x : String} :
    ∀ (acts : List ActionDesc), (∃ a ∈ acts, a.name = x) →
      ∀ (st : RegistryState),
      epOwner x node.id nm v (registerActions node nm v acts st) := by
  intro acts
  induction acts with
  | nil =>
    rintro ⟨a, ha, _⟩
    cases ha
  | cons a t ih =>
    rintro ⟨a', ha', hax⟩ st
    show epOwner x node.id nm v
      (registerActions node nm v t (serviceAddAction nm v node.id a (actionsAdd node nm v a st)))
    rcases List.mem_cons.mp ha' with rfl | hmem
    · exact epOwner_registerActions_keep node nm v t
        (epOwner_serviceAddAction nm v node.id a'
          (epOwner_actionsAdd_self node nm v a' hax st))
    · exact ih ⟨a', hmem, hax⟩ _

theorem epOwner_registerActions_nox (node : Node) (snm : String)
    (sv : Option Nat) {x nid nm : String} {v : Option Nat} :
    ∀ (acts : List ActionDesc), (∀ b ∈ acts, b.name ≠ x) →
      ∀ {st : RegistryState}, epOwner x nid nm v st →
      epOwner x nid nm v (registerActions node snm sv acts st) := by
  intro acts
  induction acts with
  | nil => intro _ st h; exact h
  | cons a t ih =>
    intro hall st h
    refine ih (fun b hb => hall b (List.mem_cons_of_mem a hb)) ?_
    exact epOwner_serviceAddAction snm sv node.id a
      (epOwner_actionsAdd_ne node snm sv a (hall a (List.mem_cons_self a t)) h)

theorem epOwner_foldl_unregisterAction (node : Node) (p : ActionDesc → Bool) :
    ∀ (l : List ActionDesc) {x nid nm : String} {v : Option Nat}
      {st : RegistryState}, epOwner x nid nm v st →
      epOwner x nid nm v
        (l.foldl (fun s a => if p a then s else unregisterAction node a.name s) st) := by
  intro l
  induction l with
  | nil => intro x nid nm v st h; exact h
  | cons a t ih =>
    intro x nid nm v st h
    refine ih ?_
    dsimp only
    split
    · exact h
    · exact epOwner_actionsRemove a.name node.id h

theorem epOwner_registerServiceOne_self (node : Node) (svc : ServiceDesc)
    {x : String} (hx : ∃ a ∈ svc.actions, a.name = x) (st : RegistryState) :
    epOwner x node.id svc.name svc.version (registerServiceOne node svc st) := by
  cases hg : servicesGet svc.name svc.version node.id st with
  | none =>
    rw [registerServiceOne_notFound node svc hg]
    exact epOwner_registerActions_self node svc.name svc.version svc.actions hx _
  | some T =>
    rw [registerServiceOne_found node svc hg]
    exact epOwner_foldl_unregisterAction node _ _
      (epOwner_registerActions_self node svc.name svc.version svc.actions hx _)

theorem epOwner_registerServiceOne_nox (node : Node) (svc : ServiceDesc)
    {x nid nm : String} {v : Option Nat} (hnox : ∀ b ∈ svc.actions, b.name ≠ x)
    {st : RegistryState} (h : epOwner x nid nm v st) :
    epOwner x nid nm v (registerServiceOne node svc st) := by
  cases hg : servicesGet svc.name svc.version node.id st with
  | none =>
    rw [registerServiceOne_notFound node svc hg]
    exact epOwner_registerActions_nox node svc.name svc.version svc.actions hnox
      (epOwner_servicesAdd node svc.name svc.version svc.settings h)
  | some T =>
    rw [registerServiceOne_found node svc hg]
    exact epOwner_foldl_unregisterAction node _ _
      (epOwner_registerActions_nox node svc.name svc.version svc.actions hnox
        (epOwner_serviceUpdate svc.name svc.version node.id svc.settings h))

theorem epOwner_registerServiceOne_pres (node : Node) (svc : ServiceDesc)
    {x nm : String} {v : Option Nat}
    (hp : (svc.name = nm ∧ svc.version = v) ∨ (∀ b ∈ svc.actions, b.name ≠ x))
    {st : RegistryState} (h : epOwner x node.id nm v st) :
    epOwner x node.id nm v (registerServiceOne node svc st) := by
  rcases hp with ⟨hn, hv⟩ | hnox
  · by_cases hhx : ∃ a ∈ svc.actions, a.name = x
    · have := epOwner_registerServiceOne_self node svc hhx st
      rw [hn, hv] at this
      exact this
    · push_neg at hhx
      exact epOwner_registerServiceOne_nox node svc hhx h
  · exact epOwner_registerServiceOne_nox node svc hnox h

theorem epOwner_foldl_registerServiceOne_pres (node : Node) {x nm : String}
    {v : Option Nat} :
    ∀ (l : List ServiceDesc),
      (∀ t ∈ l, (t.name = nm ∧ t.version = v) ∨ (∀ b ∈ t.actions, b.name ≠ x)) →
      ∀ {st : RegistryState}, epOwner x node.id nm v st →
      epOwner x node.id nm v (l.foldl (fun s svc => registerServiceOne node svc s) st) := by
  intro l
  induction l with
  | nil => intro _ st h; exact h
  | cons svc t ih =>
    intro hall st h
    refine ih (fun t' ht' => hall t' (List.mem_cons_of_mem svc ht')) ?_
    exact epOwner_registerServiceOne_pres node svc (hall svc (List.mem_cons_self svc t)) h

theorem epOwner_reconcileRemove (node : Node) (serviceList : List ServiceDesc)
    {x nid nm : String} {v : Option Nat} {st : RegistryState}
    (h : epOwner x nid nm v st) :
    epOwner x nid nm v (reconcileRemove node serviceList st) := by
  unfold reconcileRemove
  generalize st.services = snapshot
  induction snapshot generalizing st with
  | nil => exact h
  | cons sv t ih =>
    refine ih ?_
    dsimp only
    split
    · exact epOwner_servicesRemove sv.name sv.version node.id h
    · exact h

theorem servicesRemove_removes_key (nm : String) (v : Option Nat)
    (nid : String) (st : RegistryState) :
    servicesGet nm v nid (servicesRemove nm v nid st) = none := by
  unfold servicesRemove
  split
  next hg => exact hg
  next T hg =>
    show (List.filter _ st.services).find? _ = none
    apply List.find?_eq_none.mpr
    intro y hy
    have := (List.mem_filter.mp hy).2
    simpa using this

theorem notFound_servicesRemove (nm' : String) (v' : Option Nat)
    (nid' : String) {nm : String} {v : Option Nat} {nid : String}
    {st : RegistryState} (h : servicesGet nm v nid st = none) :
    servicesGet nm v nid (servicesRemove nm' v' nid' st) = none := by
  unfold servicesRemove
  split
  · exact h
  · show (List.filter _ st.services).find? _ = none
    apply List.find?_eq_none.mpr
    intro y hy
    exact List.find?_eq_none.mp h y (List.mem_filter.mp hy).1

theorem foundKey_servicesRemove_ne (nm' : String) (v' : Option Nat)
    (nid' : String) {nm : String} {v : Option Nat} {nid : String}
    (hne : ¬(nm' = nm ∧ v' = v ∧ nid' = nid)) {st : RegistryState}
    (h : foundKey nm v nid st) :
    foundKey nm v nid (servicesRemove nm' v' nid' st) := by
  rcases h with ⟨T, hT⟩
  unfold servicesRemove
  split
  · exact ⟨T, hT⟩
  · refine ⟨T, ?_⟩
    show (List.filter _ st.services).find? _ = some T
    rw [find?_filter_of_imp ?_ st.services]
    · exact hT
    · intro y hp
      have hk := matchKey_eq_true.mp hp
      simp only [Bool.not_eq_true']
      apply (Bool.not_eq_true _).mp
      intro hk'
      have hk2 := matchKey_eq_true.mp hk'
      exact hne ⟨hk2.1.symm.trans hk.1, hk2.2.1.symm.trans hk.2.1, hk2.2.2.symm.trans hk.2.2⟩

theorem servicesRemove_noEP (nm : String) (v : Option Nat) (nid : String)
    (st : RegistryState) {x : String} (hown : epOwner x nid nm v st)
    (hfound : foundKey nm v nid st) :
    noEndpointOn x nid (servicesRemove nm v nid st) := by
  rcases hfound with ⟨T, hT⟩
  unfold servicesRemove
  rw [hT]
  intro e he hname ep hep hnid
  rcases List.mem_map.mp he with ⟨e0, he0, rfl⟩
  have hepin := List.mem_filter.mp hep
  have hko := hown e0 he0 hname ep hepin.1 hnid
  have hcontra := hepin.2
  rw [hnid, hko.1, hko.2] at hcontra
  simp at hcontra

theorem reconcileRemove_purge_aux (node : Node) (Lst : List ServiceDesc)
    (nm : String) (v : Option Nat) (x : String)
    (hnot : ∀ t ∈ Lst, ¬(nm = t.name ∧ v = t.version)) :
    ∀ (snapshot : List ServiceItem) (cur : RegistryState),
      ((servicesGet nm v node.id cur = none ∧ noEndpointOn x node.id cur) ∨
        ((∃ w ∈ snapshot, w.matchKey nm v node.id = true) ∧
          foundKey nm v node.id cur ∧ epOwner x node.id nm v cur)) →
      servicesGet nm v node.id
          (snapshot.foldl (fun s service =>
            if service.nodeId == node.id &&
                !(Lst.any (fun svc =>
                    service.name == svc.name && service.version == svc.version)) then
              unregisterService service.name service.version node.id s
            else s) cur) = none ∧
        noEndpointOn x node.id
          (snapshot.foldl (fun s service =>
            if service.nodeId == node.id &&
                !(Lst.any (fun svc =>
                    service.name == svc.name && service.version == svc.version)) then
              unregisterService service.name service.version node.id s
            else s) cur) := by
  intro snapshot
  induction snapshot with
  | nil =>
    rintro cur (⟨h1, h2⟩ | ⟨⟨w, hw, -⟩, -, -⟩)
    · exact ⟨h1, h2⟩
    · cases hw
  | cons w t ih =>
    rintro cur (⟨h1, h2⟩ | ⟨⟨w', hw', hwk⟩, hfound, hown⟩)
    · apply ih
      left
      dsimp only
      split
      · exact ⟨notFound_servicesRemove w.name w.version node.id h1,
          noEP_servicesRemove w.name w.version node.id h2⟩
      · exact ⟨h1, h2⟩
    · by_cases hwk2 : w.matchKey nm v node.id = true
      · obtain ⟨hwn, hwv, hwi⟩ := matchKey_eq_true.mp hwk2
        have hany : Lst.any (fun svc => w.name == svc.name && w.version == svc.version) = false := by
          apply List.any_eq_false.mpr
          intro svc hsvc
          simp only [Bool.and_eq_true, beq_iff_eq, not_and]
          intro hn hv
          rw [hwn] at hn
          rw [hwv] at hv
          exact absurd ⟨hn, hv⟩ (hnot svc hsvc)
        have hguard : (w.nodeId == node.id &&
            !(Lst.any (fun svc => w.name == svc.name && w.version == svc.version))) = true := by
          simp [hwi, hany]
        apply ih
        left
        dsimp only
        rw [if_pos hguard, hwn, hwv]
        exact ⟨servicesRemove_removes_key nm v node.id cur,
          servicesRemove_noEP nm v node.id cur hown hfound⟩
      · have hw't : w' ∈ t := by
          rcases List.mem_cons.mp hw' with rfl | hmem
          · exact absurd hwk hwk2
          · exact hmem
        apply ih
        dsimp only
        split
        next hguard =>
          simp only [Bool.and_eq_true] at hguard
          have hwi : w.nodeId = node.id := by simpa using hguard.1
          right
          refine ⟨⟨w', hw't, hwk⟩, ?_, epOwner_servicesRemove w.name w.version node.id hown⟩
          refine foundKey_servicesRemove_ne w.name w.version node.id ?_ hfound
          rintro ⟨hn, hv, -⟩
          exact hwk2 (matchKey_eq_true.mpr ⟨hn, hv, hwi⟩)
        · right
          exact ⟨⟨w', hw't, hwk⟩, hfound, hown⟩

theorem reconcileRemove_purge (node : Node) (Lst : List ServiceDesc)
    (nm : String) (v : Option Nat) (x : String)
    (hnot : ∀ t ∈ Lst, ¬(nm = t.name ∧ v = t.version)) (cur : RegistryState)
    (hfound : foundKey nm v node.id cur) (hown : epOwner x node.id nm v cur) :
    servicesGet nm v node.id (reconcileRemove node Lst cur) = none ∧
    noEndpointOn x node.id (reconcileRemove node Lst cur) := by
  have hwit : ∃ w ∈ cur.services, w.matchKey nm v node.id = true := by
    rcases hfound with ⟨T, hT⟩
    have hT' : cur.services.find? (fun y => y.matchKey nm v node.id) = some T := hT
    refine ⟨T, List.mem_of_find?_eq_some hT', ?_⟩
    have h0 := List.find?_some hT'
    simpa using h0
  exact reconcileRemove_purge_aux node Lst nm v x hnot cur.services cur
    (Or.inr ⟨hwit, hfound, hown⟩)

/-- C1: when the node re-announces its service list with one service `s`
removed (and no remaining descriptor carries the same `(name, version)` or
provides the removed service's action names), the service is absent from
the service catalog for the node and every action that only `s` provided on
the node has no endpoint for the node any more. -/
theorem reconcile_removal (node : Node) (L1 L2 : List ServiceDesc)
    (st : RegistryState) (s : ServiceDesc) (x : String)
    (hs : s ∈ L1)
    (hL2 : L2 = L1.filter (fun t => !(t.name == s.name && t.version == s.version)))
    (hx : ∃ a ∈ s.actions, a.name = x)
    (honly : ∀ t ∈ L1, (t.name = s.name ∧ t.version = s.version) ∨
      ∀ b ∈ t.actions, b.name ≠ x) :
    servicesGet s.name s.version node.id
        (registerServices node L2 (registerServices node L1 st)) = none ∧
    noEndpointOn x node.id
        (registerServices node L2 (registerServices node L1 st)) := by
  have hL2nox : ∀ t ∈ L2, ∀ b ∈ t.actions, b.name ≠ x := by
    intro t ht
    rw [hL2] at ht
    have hmem := List.mem_filter.mp ht
    rcases honly t hmem.1 with hk | hnox
    · exfalso
      have hpred := hmem.2
      simp [hk.1, hk.2] at hpred
    · exact hnox
  have hL2nokey : ∀ t ∈ L2, ¬(s.name = t.name ∧ s.version = t.version) := by
    rintro t ht ⟨hn, hv⟩
    rw [hL2] at ht
    have hpred := (List.mem_filter.mp ht).2
    simp [← hn, ← hv] at hpred
  rcases List.append_of_mem hs with ⟨P, R, hPL⟩
  subst hPL
  have honlyR : ∀ t ∈ R, (t.name = s.name ∧ t.version = s.version) ∨
      ∀ b ∈ t.actions, b.name ≠ x := by
    intro t ht
    exact honly t (List.mem_append_right P (List.mem_cons_of_mem s ht))
  have hFWA1 : foundWithAction s.name s.version node.id x
      (registerServices node (P ++ s :: R) st) := by
    unfold registerServices
    rw [List.foldl_append, List.foldl_cons]
    apply FWA_reconcileRemove_kept node (P ++ s :: R)
      ⟨s, List.mem_append_right P (List.mem_cons_self s R), rfl, rfl⟩
    apply FWA_foldl_registerServiceOne
    exact FWA_registerServiceOne_self node s hx _
  have hOwn1 : epOwner x node.id s.name s.version
      (registerServices node (P ++ s :: R) st) := by
    unfold registerServices
    rw [List.foldl_append, List.foldl_cons]
    apply epOwner_reconcileRemove
    apply epOwner_foldl_registerServiceOne_pres node R honlyR
    exact epOwner_registerServiceOne_self node s hx _
  have hFWA2 : foundWithAction s.name s.version node.id x
      (L2.foldl (fun acc svc => registerServiceOne node svc acc)
        (registerServices node (P ++ s :: R) st)) :=
    FWA_foldl_registerServiceOne node L2 hFWA1
  have hOwn2 : epOwner x node.id s.name s.version
      (L2.foldl (fun acc svc => registerServiceOne node svc acc)
        (registerServices node (P ++ s :: R) st)) :=
    epOwner_foldl_registerServiceOne_pres node L2
      (fun t ht => Or.inr (hL2nox t ht)) hOwn1
  have hfound2 : foundKey s.name s.version node.id
      (L2.foldl (fun acc svc => registerServiceOne node svc acc)
        (registerServices node (P ++ s :: R) st)) := by
    rcases hFWA2 with ⟨T, hT, -⟩
    exact ⟨T, hT⟩
  exact reconcileRemove_purge node L2 s.name s.version x hL2nokey _ hfound2 hOwn2

/-- Witness for C1 at a concrete input: node `A` announces `math` and
`post`, then re-announces only `math`; afterwards the `post` service is
gone for `A` and `post.find` has no endpoint on `A`. -/
theorem reconcile_removal_witness :
    (svcPost ∈ [svcMath, svcPost]) ∧
    servicesGet "post" none "A"
        (registerServices nodeA [svcMath]
          (registerServices nodeA [svcMath, svcPost] (initRegistry lnW))) = none ∧
    noEndpointOn "post.find" "A"
        (registerServices nodeA [svcMath]
          (registerServices nodeA [svcMath, svcPost] (initRegistry lnW))) := by
  have hs : svcPost ∈ [svcMath, svcPost] := by decide
  have hL2 : [svcMath] = [svcMath, svcPost].filter
      (fun t => !(t.name == svcPost.name && t.version == svcPost.version)) := by decide
  have hx : ∃ a ∈ svcPost.actions, a.name = "post.find" := ⟨actFind, by decide, rfl⟩
  have honly : ∀ t ∈ [svcMath, svcPost],
      (t.name = svcPost.name ∧ t.version = svcPost.version) ∨
      ∀ b ∈ t.actions, b.name ≠ "post.find" := by decide
  have h := reconcile_removal nodeA [svcMath, svcPost] [svcMath] (initRegistry lnW)
    svcPost "post.find" hs hL2 hx honly
  exact ⟨hs, h.1, h.2⟩

theorem upsert_value_self (m : List ActionDesc) (a : ActionDesc) :
    ∀ b ∈ upsertAction m a, b.name = a.name → b = a := by
  intro b hb hbn
  unfold upsertAction at hb
  split at hb
  next hany =>
    rcases List.mem_map.mp hb with ⟨b0, hb0, rfl⟩
    by_cases hn : (b0.name == a.name) = true
    · rw [if_pos hn]
    · rw [if_neg hn] at hbn ⊢
      exact absurd (by simpa using hbn) hn
  next hany =>
    rcases List.mem_append.mp hb with hb0 | hb0
    · exfalso
      have hfalse : m.any (fun b => b.name == a.name) = false := by simpa using hany
      have := List.any_eq_false.mp hfalse b hb0
      exact this (by simpa using hbn)
    · exact List.mem_singleton.mp hb0

theorem upsert_value_pres {m : List ActionDesc} {a : ActionDesc}
    (a' : ActionDesc) (hne : a'.name ≠ a.name)
    (h : ∀ b ∈ m, b.name = a.name → b = a) :
    ∀ b ∈ upsertAction m a', b.name = a.name → b = a := by
  intro b hb hbn
  unfold upsertAction at hb
  split at hb
  · rcases List.mem_map.mp hb with ⟨b0, hb0, rfl⟩
    by_cases hn : (b0.name == a'.name) = true
    · rw [if_pos hn] at hbn ⊢
      exact absurd hbn hne
    · rw [if_neg hn] at hbn ⊢
      exact h b0 hb0 hbn
  · rcases List.mem_append.mp hb with hb0 | hb0
    · exact h b hb0 hbn
    · rw [List.mem_singleton.mp hb0] at hbn ⊢
      exact absurd hbn hne

theorem upsert_names {m : List ActionDesc} {a : ActionDesc} :
    ∀ y ∈ upsertAction m a, (∃ y0 ∈ m, y0.name = y.name) ∨ y.name = a.name := by
  intro y hy
  unfold upsertAction at hy
  split at hy
  · rcases List.mem_map.mp hy with ⟨y0, hy0, rfl⟩
    by_cases hn : (y0.name == a.name) = true
    · rw [if_pos hn]
      exact Or.inr rfl
    · rw [if_neg hn]
      exact Or.inl ⟨y0, hy0, rfl⟩
  · rcases List.mem_append.mp hy with hy0 | hy0
    · exact Or.inl ⟨y, hy0, rfl⟩
    · rw [List.mem_singleton.mp hy0]
      exact Or.inr rfl

theorem foldUpsert_any {x : String} :
    ∀ (acts : List ActionDesc) (m : List ActionDesc),
      (∃ a ∈ acts, a.name = x) ∨ m.any (fun b => b.name == x) = true →
      (acts.foldl upsertAction m).any (fun b => b.name == x) = true := by
  intro acts
  induction acts with
  | nil =>
    rintro m (⟨a, ha, -⟩ | h)
    · cases ha
    · exact h
  | cons a t ih =>
    rintro m (⟨a', ha', hax⟩ | h)
    · rcases List.mem_cons.mp ha' with rfl | hmem
      · refine ih _ (Or.inr ?_)
        rw [← hax]
        exact any_name_upsert_self m a'
      · exact ih _ (Or.inl ⟨a', hmem, hax⟩)
    · exact ih _ (Or.inr (any_name_upsert h a))

theorem foldUpsert_value_pres {a : ActionDesc} :
    ∀ (acts : List ActionDesc) (m : List ActionDesc),
      (∀ a' ∈ acts, a'.name ≠ a.name) →
      (∀ b ∈ m, b.name = a.name → b = a) →
      ∀ b ∈ acts.foldl upsertAction m, b.name = a.name → b = a := by
  intro acts
  induction acts with
  | nil => intro m _ h; exact h
  | cons a' t ih =>
    intro m hall h
    exact ih _ (fun c hc => hall c (List.mem_cons_of_mem a' hc))
      (upsert_value_pres a' (hall a' (List.mem_cons_self a' t)) h)

theorem foldUpsert_value {a : ActionDesc} :
    ∀ (acts : List ActionDesc) (m : List ActionDesc),
      acts.Pairwise (fun b c => b.name ≠ c.name) → a ∈ acts →
      ∀ b ∈ acts.foldl upsertAction m, b.name = a.name → b = a := by
  intro acts
  induction acts with
  | nil => intro m _ ha; cases ha
  | cons a' t ih =>
    intro m hp ha
    rcases List.mem_cons.mp ha with rfl | hmem
    · exact foldUpsert_value_pres t _
        (fun c hc => Ne.symm ((List.pairwise_cons.mp hp).1 c hc))
        (upsert_value_self m a)
    · exact ih _ (List.pairwise_cons.mp hp).2 hmem

theorem foldUpsert_names :
    ∀ (acts : List ActionDesc) (m : List ActionDesc),
      ∀ y ∈ acts.foldl upsertAction m,
        (∃ y0 ∈ m, y0.name = y.name) ∨ (∃ a ∈ acts, a.name = y.name) := by
  intro acts
  induction acts with
  | nil =>
    intro m y hy
    exact Or.inl ⟨y, hy, rfl⟩
  | cons a t ih =>
    intro m y hy
    rcases ih (upsertAction m a) y hy with ⟨y0, hy0, hyn⟩ | ⟨a', ha', hyn⟩
    · rcases upsert_names y0 hy0 with ⟨y1, hy1, hyn1⟩ | hyn1
      · exact Or.inl ⟨y1, hy1, hyn1.trans hyn⟩
      · exact Or.inr ⟨a, List.mem_cons_self a t, hyn1.symm.trans hyn⟩
    · exact Or.inr ⟨a', List.mem_cons_of_mem a ha', hyn⟩

theorem find?_map_predEq {α : Type} {p : α → Bool} {f : α → α}
    (hf : ∀ a', p (f a') = p a') (l : List α) :
    (l.map f).find? p = (l.find? p).map f := by
  rw [List.find?_map]
  have hcomp : (p ∘ f) = p := funext hf
  rw [hcomp]

theorem find?_append_irrelevant {α : Type} {p : α → Bool} {item : α}
    (hp : p item = false) (l : List α) :
    (l ++ [item]).find? p = l.find? p := by
  induction l with
  | nil =>
    show List.find? p [item] = none
    have hp' : ¬ p item = true := by simp [hp]
    rw [List.find?_cons_of_neg _ hp']
    rfl
  | cons b t ih =>
    rw [List.cons_append]
    cases hpb : p b with
    | true =>
      rw [List.find?_cons_of_pos _ hpb, List.find?_cons_of_pos _ hpb]
    | false =>
      have hpb' : ¬ p b = true := by simp [hpb]
      rw [List.find?_cons_of_neg _ hpb', List.find?_cons_of_neg _ hpb']
      exact ih

theorem servicesGet_congr_services {st st' : RegistryState}
    (h : st'.services = st.services) (nm : String) (v : Option Nat)
    (nid : String) : servicesGet nm v nid st' = servicesGet nm v nid st := by
  show st'.services.find? _ = st.services.find? _
  rw [h]

theorem servicesGet_serviceUpdate_self (nm : String) (v : Option Nat)
    (nid : String) (settings : Nat) (st : RegistryState) :
    servicesGet nm v nid (serviceUpdate nm v nid settings st) =
      (servicesGet nm v nid st).map (fun T => { T with settings := settings }) := by
  show (st.services.map _).find? _ = (st.services.find? _).map _
  rw [find?_map_predEq ?hpred st.services]
  case hpred =>
    intro s
    dsimp only
    split <;> simp [ServiceItem.matchKey]
  cases hg : st.services.find? (fun s => s.matchKey nm v nid) with
  | none => rfl
  | some T =>
    have hkey : T.matchKey nm v nid = true := by
      have h0 := List.find?_some hg
      simpa using h0
    rw [Option.map_some', Option.map_some', if_pos hkey]

theorem servicesGet_serviceAddAction_self (nm : String) (v : Option Nat)
    (nid : String) (a : ActionDesc) (st : RegistryState) :
    servicesGet nm v nid (serviceAddAction nm v nid a st) =
      (servicesGet nm v nid st).map
        (fun T => { T with actions := upsertAction T.actions a }) := by
  show (st.services.map _).find? _ = (st.services.find? _).map _
  rw [find?_map_predEq ?hpred st.services]
  case hpred =>
    intro s
    dsimp only
    split <;> simp [ServiceItem.matchKey]
  cases hg : st.services.find? (fun s => s.matchKey nm v nid) with
  | none => rfl
  | some T =>
    have hkey : T.matchKey nm v nid = true := by
      have h0 := List.find?_some hg
      simpa using h0
    rw [Option.map_some', Option.map_some', if_pos hkey]

theorem servicesGet_actionsAdd (node : Node) (snm : String) (sv : Option Nat)
    (a : ActionDesc) (nm : String) (v : Option Nat) (nid : String)
    (st : RegistryState) :
    servicesGet nm v nid (actionsAdd node snm sv a st) =
      servicesGet nm v nid st :=
  servicesGet_congr_services (actionsAdd_services node snm sv a st) nm v nid

theorem servicesGet_registerActions_self (node : Node) (nm : String)
    (v : Option Nat) :
    ∀ (acts : List ActionDesc) (st : RegistryState),
      servicesGet nm v node.id (registerActions node nm v acts st) =
        (servicesGet nm v node.id st).map
          (fun T => { T with actions := acts.foldl upsertAction T.actions }) := by
  intro acts
  induction acts with
  | nil =>
    intro st
    cases hg : servicesGet nm v node.id st <;> simp [registerActions, hg]
  | cons a t ih =>
    intro st
    show servicesGet nm v node.id
        (registerActions node nm v t
          (serviceAddAction nm v node.id a (actionsAdd node nm v a st))) = _
    rw [ih, servicesGet_serviceAddAction_self, servicesGet_actionsAdd]
    cases hg : servicesGet nm v node.id st <;> simp

theorem matchKey_eq_false_of_ne {T : ServiceItem} {nm' nm : String}
    {v' v : Option Nat} {nid' nid : String}
    (hk : T.matchKey nm v nid = true) (hne : ¬(nm' = nm ∧ v' = v ∧ nid' = nid)) :
    T.matchKey nm' v' nid' = false := by
  cases hmk : T.matchKey nm' v' nid' with
  | false => rfl
  | true =>
    exfalso
    obtain ⟨h1, h2, h3⟩ := matchKey_eq_true.mp hk
    obtain ⟨g1, g2, g3⟩ := matchKey_eq_true.mp hmk
    exact hne ⟨g1.symm.trans h1, g2.symm.trans h2, g3.symm.trans h3⟩

theorem servicesGet_serviceUpdate_ne (nm' : String) (v' : Option Nat)
    (nid' : String) (settings : Nat) {nm : String} {v : Option Nat}
    {nid : String} (hne : ¬(nm' = nm ∧ v' = v ∧ nid' = nid))
    (st : RegistryState) :
    servicesGet nm v nid (serviceUpdate nm' v' nid' settings st) =
      servicesGet nm v nid st := by
  show (st.services.map _).find? _ = st.services.find? _
  rw [find?_map_predEq ?hpred st.services]
  case hpred =>
    intro s
    dsimp only
    split <;> simp [ServiceItem.matchKey]
  cases hg : st.services.find? (fun s => s.matchKey nm v nid) with
  | none => rfl
  | some T =>
    have hkey : T.matchKey nm v nid = true := by
      have h0 := List.find?_some hg
      simpa using h0
    rw [Option.map_some',
      if_neg (by simp [matchKey_eq_false_of_ne hkey hne])]

theorem servicesGet_serviceAddAction_ne (nm' : String) (v' : Option Nat)
    (nid' : String) (a : ActionDesc) {nm : String} {v : Option Nat}
    {nid : String} (hne : ¬(nm' = nm ∧ v' = v ∧ nid' = nid))
    (st : RegistryState) :
    servicesGet nm v nid (serviceAddAction nm' v' nid' a st) =
      servicesGet nm v nid st := by
  show (st.services.map _).find? _ = st.services.find? _
  rw [find?_map_predEq ?hpred st.services]
  case hpred =>
    intro s
    dsimp only
    split <;> simp [ServiceItem.matchKey]
  cases hg : st.services.find? (fun s => s.matchKey nm v nid) with
  | none => rfl
  | some T =>
    have hkey : T.matchKey nm v nid = true := by
      have h0 := List.find?_some hg
      simpa using h0
    rw [Option.map_some',
      if_neg (by simp [matchKey_eq_false_of_ne hkey hne])]

theorem servicesGet_servicesAdd_ne (node : Node) (nm' : String)
    (v' : Option Nat) (settings : Nat) {nm : String} {v : Option Nat}
    {nid : String} (hne : ¬(nm' = nm ∧ v' = v ∧ node.id = nid))
    (st : RegistryState) :
    servicesGet nm v nid (servicesAdd node nm' v' settings st) =
      servicesGet nm v nid st := by
  show (st.services ++ [_]).find? _ = st.services.find? _
  apply find?_append_irrelevant
  cases hmk : ServiceItem.matchKey ⟨nm', v', node.id, settings, []⟩ nm v nid with
  | false => rfl
  | true =>
    exfalso
    obtain ⟨h1, h2, h3⟩ := matchKey_eq_true.mp hmk
    exact hne ⟨h1, h2, h3⟩

theorem foldl_unregisterAction_services (node : Node) (p : ActionDesc → Bool) :
    ∀ (l : List ActionDesc) (st : RegistryState),
      ((l.foldl (fun s a => if p a then s else unregisterAction node a.name s) st)).services =
        st.services := by
  intro l
  induction l with
  | nil => intro st; rfl
  | cons a t ih =>
    intro st
    show (t.foldl _ (if p a then st else unregisterAction node a.name st)).services = _
    rw [ih]
    split <;> rfl

theorem servicesGet_registerActions_ne (node : Node) (snm : String)
    (sv : Option Nat) {nm : String} {v : Option Nat} {nid : String}
    (hne : ¬(snm = nm ∧ sv = v ∧ node.id = nid)) :
    ∀ (acts : List ActionDesc) (st : RegistryState),
      servicesGet nm v nid (registerActions node snm sv acts st) =
        servicesGet nm v nid st := by
  intro acts
  induction acts with
  | nil => intro st; rfl
  | cons a t ih =>
    intro st
    show servicesGet nm v nid
        (registerActions node snm sv t
          (serviceAddAction snm sv node.id a (actionsAdd node snm sv a st))) = _
    rw [ih, servicesGet_serviceAddAction_ne snm sv node.id a hne,
      servicesGet_actionsAdd]

theorem servicesGet_registerServiceOne_ne (node : Node) (svc' : ServiceDesc)
    {nm : String} {v : Option Nat}
    (hne : ¬(svc'.name = nm ∧ svc'.version = v)) (st : RegistryState) :
    servicesGet nm v node.id (registerServiceOne node svc' st) =
      servicesGet nm v node.id st := by
  have hne3 : ¬(svc'.name = nm ∧ svc'.version = v ∧ node.id = node.id) := by
    rintro ⟨h1, h2, -⟩
    exact hne ⟨h1, h2⟩
  cases hg : servicesGet svc'.name svc'.version node.id st with
  | none =>
    rw [registerServiceOne_notFound node svc' hg,
      servicesGet_registerActions_ne node svc'.name svc'.version hne3,
      servicesGet_servicesAdd_ne node svc'.name svc'.version svc'.settings hne3]
  | some T =>
    rw [registerServiceOne_found node svc' hg]
    rw [servicesGet_congr_services (foldl_unregisterAction_services node _ T.actions _) nm v node.id]
    rw [servicesGet_registerActions_ne node svc'.name svc'.version hne3,
      servicesGet_serviceUpdate_ne svc'.name svc'.version node.id svc'.settings hne3]

theorem servicesGet_foldl_registerServiceOne_ne (node : Node) {nm : String}
    {v : Option Nat} :
    ∀ (l : List ServiceDesc), (∀ t ∈ l, ¬(t.name = nm ∧ t.version = v)) →
      ∀ (st : RegistryState),
      servicesGet nm v node.id (l.foldl (fun acc t => registerServiceOne node t acc) st) =
        servicesGet nm v node.id st := by
  intro l
  induction l with
  | nil => intro _ st; rfl
  | cons t' r ih =>
    intro hall st
    show servicesGet nm v node.id
        (r.foldl (fun acc t => registerServiceOne node t acc) (registerServiceOne node t' st)) = _
    rw [ih (fun t ht => hall t (List.mem_cons_of_mem t' ht)),
      servicesGet_registerServiceOne_ne node t' (hall t' (List.mem_cons_self t' r)) st]

theorem servicesGet_servicesRemove_ne (nm' : String) (v' : Option Nat)
    (nid' : String) {nm : String} {v : Option Nat} {nid : String}
    (hne : ¬(nm' = nm ∧ v' = v ∧ nid' = nid)) (st : RegistryState) :
    servicesGet nm v nid (servicesRemove nm' v' nid' st) =
      servicesGet nm v nid st := by
  unfold servicesRemove
  split
  · rfl
  · show (List.filter _ st.services).find? _ = st.services.find? _
    apply find?_filter_of_imp
    intro y hp
    have hk := matchKey_eq_true.mp hp
    simp only [Bool.not_eq_true']
    exact matchKey_eq_false_of_ne hp hne

theorem servicesGet_reconcileRemove_kept (node : Node) (Lst : List ServiceDesc)
    {nm : String} {v : Option Nat}
    (hkept : ∃ t ∈ Lst, nm = t.name ∧ v = t.version) (st : RegistryState) :
    servicesGet nm v node.id (reconcileRemove node Lst st) =
      servicesGet nm v node.id st := by
  unfold reconcileRemove
  generalize st.services = snapshot
  induction snapshot generalizing st with
  | nil => rfl
  | cons w t ih =>
    have hstep : servicesGet nm v node.id
        (if (w.nodeId == node.id &&
            !(Lst.any (fun svc => w.name == svc.name && w.version == svc.version))) = true then
          unregisterService w.name w.version node.id st
        else st) = servicesGet nm v node.id st := by
      split
      next hguard =>
        simp only [Bool.and_eq_true, Bool.not_eq_true'] at hguard
        obtain ⟨-, hany⟩ := hguard
        apply servicesGet_servicesRemove_ne
        rintro ⟨hn, hv, -⟩
        rcases hkept with ⟨tk, htk, hkn, hkv⟩
        have hany' : Lst.any (fun svc => w.name == svc.name && w.version == svc.version) = true := by
          refine List.any_eq_true.mpr ⟨tk, htk, ?_⟩
          rw [hn, ← hkn, hv, ← hkv]
          simp
        rw [hany'] at hany
        cases hany
      · rfl
    exact (ih _).trans hstep

theorem pairwise_mem_eq {α : Type} {R : α → α → Prop} :
    ∀ {l : List α}, l.Pairwise R → ∀ {a b : α}, a ∈ l → b ∈ l →
      ¬ R a b → ¬ R b a → a = b := by
  intro l
  induction l with
  | nil =>
    intro _ a b ha
    cases ha
  | cons c t ih =>
    intro h a b ha hb hnab hnba
    obtain ⟨hrel, hp⟩ := List.pairwise_cons.mp h
    rcases List.mem_cons.mp ha with rfl | hat
    · rcases List.mem_cons.mp hb with rfl | hbt
      · rfl
      · exact absurd (hrel b hbt) hnab
    · rcases List.mem_cons.mp hb with rfl | hbt
      · exact absurd (hrel a hat) hnba
      · exact ih hp hat hbt hnab hnba

theorem unique_match {l : List ServiceItem} (h : servicesUnique l)
    {nm : String} {v : Option Nat} {nid : String} {T : ServiceItem}
    (hT : l.find? (fun s => s.matchKey nm v nid) = some T) :
    ∀ s ∈ l, s.matchKey nm v nid = true → s = T := by
  intro s hs hsk
  have hTmem : T ∈ l := List.mem_of_find?_eq_some hT
  have hTk : T.matchKey nm v nid = true := by
    have h0 := List.find?_some hT
    simpa using h0
  obtain ⟨s1, s2, s3⟩ := matchKey_eq_true.mp hsk
  obtain ⟨t1, t2, t3⟩ := matchKey_eq_true.mp hTk
  exact pairwise_mem_eq h hs hTmem
    (fun hr => hr ⟨s1.trans t1.symm, s2.trans t2.symm, s3.trans t3.symm⟩)
    (fun hr => hr ⟨t1.trans s1.symm, t2.trans s2.symm, t3.trans s3.symm⟩)

theorem map_id_of_eq {α : Type} {f : α → α} :
    ∀ {l : List α}, (∀ a ∈ l, f a = a) → l.map f = l := by
  intro l
  induction l with
  | nil => intro _; rfl
  | cons a t ih =>
    intro h
    rw [List.map_cons, h a (List.mem_cons_self a t),
      ih (fun b hb => h b (List.mem_cons_of_mem a hb))]

theorem filter_self_of {α : Type} {p : α → Bool} :
    ∀ {l : List α}, (∀ a ∈ l, p a = true) → l.filter p = l := by
  intro l
  induction l with
  | nil => intro _; rfl
  | cons a t ih =>
    intro h
    rw [List.filter_cons_of_pos (h a (List.mem_cons_self a t)),
      ih (fun b hb => h b (List.mem_cons_of_mem a hb))]

theorem serviceUpdate_id (nm : String) (v : Option Nat) (nid : String)
    (settings : Nat) (st : RegistryState) (hSU : servicesUnique st.services)
    {T : ServiceItem} (hT : servicesGet nm v nid st = some T)
    (hset : T.settings = settings) :
    serviceUpdate nm v nid settings st = st := by
  show { st with services := st.services.map _ } = st
  have hmap : st.services.map (fun s =>
      if s.matchKey nm v nid then { s with settings := settings } else s) =
      st.services := by
    apply map_id_of_eq
    intro s hs
    by_cases hsk : s.matchKey nm v nid = true
    · rw [if_pos hsk]
      have hsT : s = T := unique_match hSU hT s hs hsk
      rw [hsT, ← hset]
    · rw [if_neg hsk]
  rw [hmap]

theorem serviceAddAction_id (nm : String) (v : Option Nat) (nid : String)
    (a : ActionDesc) (st : RegistryState) (hSU : servicesUnique st.services)
    {T : ServiceItem} (hT : servicesGet nm v nid st = some T)
    (hany : T.actions.any (fun b => b.name == a.name) = true)
    (hval : ∀ b ∈ T.actions, b.name = a.name → b = a) :
    serviceAddAction nm v nid a st = st := by
  show { st with services := st.services.map _ } = st
  have hup : upsertAction T.actions a = T.actions := by
    unfold upsertAction
    rw [if_pos hany]
    apply map_id_of_eq
    intro b hb
    by_cases hn : (b.name == a.name) = true
    · rw [if_pos hn]
      exact (hval b hb (by simpa using hn)).symm
    · rw [if_neg hn]
  have hmap : st.services.map (fun s =>
      if s.matchKey nm v nid then { s with actions := upsertAction s.actions a } else s) =
      st.services := by
    apply map_id_of_eq
    intro s hs
    by_cases hsk : s.matchKey nm v nid = true
    · rw [if_pos hsk]
      have hsT : s = T := unique_match hSU hT s hs hsk
      rw [hsT, hup]
    · rw [if_neg hsk]
  rw [hmap]

theorem actionsAdd_id (node : Node) (snm : String) (sv : Option Nat)
    (a : ActionDesc) (st : RegistryState)
    (hclean : epClean node snm sv a st) :
    actionsAdd node snm sv a st = st := by
  unfold actionsAdd
  rw [if_pos hclean.1]
  show { st with actions := st.actions.map _ } = st
  have hmap : st.actions.map (fun e =>
      if e.name == a.name then entryAdd node snm sv a e else e) = st.actions := by
    apply map_id_of_eq
    intro e he
    by_cases hn : (e.name == a.name) = true
    · rw [if_pos hn]
      obtain ⟨hany, hvals⟩ := hclean.2 e he (by simpa using hn)
      unfold entryAdd
      rw [if_pos hany]
      have hmap2 : e.endpoints.map (fun ep =>
          if ep.nodeId == node.id then
            { ep with serviceName := snm, serviceVersion := sv, action := a }
          else ep) = e.endpoints := by
        apply map_id_of_eq
        intro ep hep
        by_cases hpn : (ep.nodeId == node.id) = true
        · rw [if_pos hpn]
          obtain ⟨e1, e2, e3⟩ := hvals ep hep (by simpa using hpn)
          rw [← e1, ← e2, ← e3]
        · rw [if_neg hpn]
      rw [hmap2]
    · rw [if_neg hn]
  rw [hmap]

theorem actionsRemove_id (nm : String) (nid : String) (st : RegistryState)
    (hnoEP : noEndpointOn nm nid st) : actionsRemove nm nid st = st := by
  show { st with actions := st.actions.map _ } = st
  have hmap : st.actions.map (fun e =>
      if e.name == nm then
        { e with endpoints := e.endpoints.filter (fun ep => !(ep.nodeId == nid)) }
      else e) = st.actions := by
    apply map_id_of_eq
    intro e he
    by_cases hn : (e.name == nm) = true
    · rw [if_pos hn]
      have hfil : e.endpoints.filter (fun ep => !(ep.nodeId == nid)) = e.endpoints := by
        apply filter_self_of
        intro ep hep
        have := hnoEP e he (by simpa using hn) ep hep
        simpa using this
      rw [hfil]
    · rw [if_neg hn]
  rw [hmap]

theorem registerActions_id (node : Node) (nm : String) (v : Option Nat)
    (st : RegistryState) (hSU : servicesUnique st.services) {T : ServiceItem}
    (hT : servicesGet nm v node.id st = some T) :
    ∀ (acts : List ActionDesc),
      (∀ a ∈ acts, epClean node nm v a st ∧
        (T.actions.any (fun b => b.name == a.name) = true) ∧
        (∀ b ∈ T.actions, b.name = a.name → b = a)) →
      registerActions node nm v acts st = st := by
  intro acts
  induction acts with
  | nil => intro _; rfl
  | cons a t ih =>
    intro hall
    show registerActions node nm v t
      (serviceAddAction nm v node.id a (actionsAdd node nm v a st)) = st
    rw [actionsAdd_id node nm v a st (hall a (List.mem_cons_self a t)).1]
    rw [serviceAddAction_id nm v node.id a st hSU hT
      (hall a (List.mem_cons_self a t)).2.1 (hall a (List.mem_cons_self a t)).2.2]
    exact ih (fun b hb => hall b (List.mem_cons_of_mem a hb))

theorem foldl_unregisterAction_id (node : Node) (p : ActionDesc → Bool)
    (st : RegistryState) :
    ∀ (l : List ActionDesc),
      (∀ y ∈ l, p y = false → noEndpointOn y.name node.id st) →
      l.foldl (fun s a => if p a then s else unregisterAction node a.name s) st = st := by
  intro l
  induction l with
  | nil => intro _; rfl
  | cons y t ih =>
    intro hall
    show t.foldl _ (if p y then st else unregisterAction node y.name st) = st
    cases hp : p y with
    | true =>
      rw [if_pos rfl]
      exact ih (fun z hz => hall z (List.mem_cons_of_mem y hz))
    | false =>
      rw [if_neg (by simp)]
      have hid : unregisterAction node y.name st = st :=
        actionsRemove_id y.name node.id st
          (hall y (List.mem_cons_self y t) hp)
      rw [hid]
      exact ih (fun z hz => hall z (List.mem_cons_of_mem y hz))

theorem registerServiceOne_id (node : Node) (svc : ServiceDesc)
    (st : RegistryState) (hSU : servicesUnique st.services) {T : ServiceItem}
    (hclean : svcCleanState node svc T st) :
    registerServiceOne node svc st = st := by
  obtain ⟨hT, hset, hmapC, hQ3, hEP⟩ := hclean
  rw [registerServiceOne_found node svc hT]
  rw [serviceUpdate_id svc.name svc.version node.id svc.settings st hSU hT hset]
  rw [registerActions_id node svc.name svc.version st hSU hT svc.actions
    (fun a ha => ⟨hEP a ha, (hmapC a ha).1, (hmapC a ha).2⟩)]
  exact foldl_unregisterAction_id node _ st T.actions hQ3

theorem foldl_registerServiceOne_id (node : Node) (st : RegistryState) :
    ∀ (l : List ServiceDesc),
      (∀ svc ∈ l, registerServiceOne node svc st = st) →
      l.foldl (fun acc svc => registerServiceOne node svc acc) st = st := by
  intro l
  induction l with
  | nil => intro _; rfl
  | cons svc t ih =>
    intro hall
    show t.foldl _ (registerServiceOne node svc st) = st
    rw [hall svc (List.mem_cons_self svc t)]
    exact ih (fun u hu => hall u (List.mem_cons_of_mem svc hu))

theorem reconcileRemove_id (node : Node) (Lst : List ServiceDesc)
    (st : RegistryState)
    (hall : ∀ T ∈ st.services, T.nodeId = node.id →
      ∃ t ∈ Lst, T.name = t.name ∧ T.version = t.version) :
    reconcileRemove node Lst st = st := by
  unfold reconcileRemove
  have hgen : ∀ (snapshot : List ServiceItem),
      (∀ T ∈ snapshot, T.nodeId = node.id →
        ∃ t ∈ Lst, T.name = t.name ∧ T.version = t.version) →
      snapshot.foldl (fun s service =>
        if service.nodeId == node.id &&
            !(Lst.any (fun svc =>
                service.name == svc.name && service.version == svc.version)) then
          unregisterService service.name service.version node.id s
        else s) st = st := by
    intro snapshot
    induction snapshot with
    | nil => intro _; rfl
    | cons w t ih =>
      intro hall'
      have hguard : (w.nodeId == node.id &&
          !(Lst.any (fun svc => w.name == svc.name && w.version == svc.version))) = false := by
        by_cases hwn : w.nodeId = node.id
        · rcases hall' w (List.mem_cons_self w t) hwn with ⟨tk, htk, h1, h2⟩
          have hany : Lst.any (fun svc => w.name == svc.name && w.version == svc.version) = true := by
            refine List.any_eq_true.mpr ⟨tk, htk, ?_⟩
            rw [h1, h2]
            simp
          simp [hany]
        · simp [hwn]
      show t.foldl _ (if (w.nodeId == node.id && !(Lst.any (fun svc =>
          w.name == svc.name && w.version == svc.version))) = true then
          unregisterService w.name w.version node.id st else st) = st
      rw [hguard]
      simp only [Bool.false_eq_true, if_false]
      exact ih (fun T hT => hall' T (List.mem_cons_of_mem w hT))
  exact hgen st.services hall

theorem any_name_map_entryAdd (node : Node) (snm : String) (sv : Option Nat)
    (a : ActionDesc) (l : List EndpointList) (z : String) :
    (l.map (fun e => if e.name == a.name then entryAdd node snm sv a e else e)).any
        (fun e => e.name == z) = l.any (fun e => e.name == z) := by
  induction l with
  | nil => rfl
  | cons e t ih =>
    rw [List.map_cons, List.any_cons, List.any_cons, ih]
    have hname : (if e.name == a.name then entryAdd node snm sv a e else e).name = e.name := by
      split
      · exact entryAdd_name node snm sv a e
      · rfl
    rw [hname]

theorem epClean_actionsAdd_self (node : Node) (snm : String) (sv : Option Nat)
    (a : ActionDesc) (st : RegistryState) :
    epClean node snm sv a (actionsAdd node snm sv a st) := by
  constructor
  · unfold actionsAdd
    split
    next hex =>
      show (st.actions.map _).any _ = true
      rw [any_name_map_entryAdd]
      exact hex
    next hex =>
      show (st.actions ++ [_]).any _ = true
      apply List.any_eq_true.mpr
      refine ⟨⟨a.name, [newEndpoint node snm sv a]⟩, List.mem_append_right _ ?_, by simp⟩
      exact List.mem_singleton.mpr rfl
  · intro e he hname
    unfold actionsAdd at he
    split at he
    next hex =>
      rcases List.mem_map.mp he with ⟨e0, he0, rfl⟩
      by_cases hn : (e0.name == a.name) = true
      · rw [if_pos hn]
        unfold entryAdd
        split
        next hany =>
          constructor
          · apply List.any_eq_true.mpr
            rcases List.any_eq_true.mp hany with ⟨ep0, hep0, hepn⟩
            refine ⟨if ep0.nodeId == node.id then
                { ep0 with serviceName := snm, serviceVersion := sv, action := a }
              else ep0, List.mem_map.mpr ⟨ep0, hep0, rfl⟩, ?_⟩
            rw [if_pos hepn]
            exact hepn
          · intro ep hep hnid
            rcases List.mem_map.mp hep with ⟨ep0, hep0, rfl⟩
            by_cases hpn : (ep0.nodeId == node.id) = true
            · rw [if_pos hpn]
              exact ⟨rfl, rfl, rfl⟩
            · rw [if_neg hpn] at hnid ⊢
              exact absurd hnid (by simpa using hpn)
        next hany =>
          constructor
          · apply List.any_eq_true.mpr
            refine ⟨newEndpoint node snm sv a, List.mem_append_right _ ?_, by simp [newEndpoint]⟩
            exact List.mem_singleton.mpr rfl
          · intro ep hep hnid
            rcases List.mem_append.mp hep with hep0 | hep0
            · have hfalse : e0.endpoints.any (fun ep => ep.nodeId == node.id) = false := by
                simpa using hany
              have := List.any_eq_false.mp hfalse ep hep0
              exact absurd hnid (by simpa using this)
            · rw [List.mem_singleton.mp hep0]
              exact ⟨rfl, rfl, rfl⟩
      · rw [if_neg hn] at hname he ⊢
        exact absurd (by rw [hname] ; simp : (e0.name == a.name) = true) hn
    next hex =>
      rcases List.mem_append.mp he with he0 | he0
      · exfalso
        have hfalse : st.actions.any (fun e => e.name == a.name) = false := by
          simpa using hex
        have := List.any_eq_false.mp hfalse e he0
        rw [hname] at this
        simp at this
      · rw [List.mem_singleton.mp he0]
        constructor
        · simp [newEndpoint]
        · intro ep hep hnid
          rw [List.mem_singleton.mp hep]
          exact ⟨rfl, rfl, rfl⟩

theorem epClean_actionsAdd_ne (node : Node) (snm' : String) (sv' : Option Nat)
    (a' : ActionDesc) {snm : String} {sv : Option Nat} {a : ActionDesc}
    (hne : a'.name ≠ a.name) {st : RegistryState}
    (h : epClean node snm sv a st) :
    epClean node snm sv a (actionsAdd node snm' sv' a' st) := by
  constructor
  · unfold actionsAdd
    split
    · show (st.actions.map _).any _ = true
      rw [any_name_map_entryAdd]
      exact h.1
    · show (st.actions ++ [_]).any _ = true
      apply List.any_eq_true.mpr
      rcases List.any_eq_true.mp h.1 with ⟨e0, he0, hen⟩
      exact ⟨e0, List.mem_append_left _ he0, hen⟩
  · intro e he hname
    unfold actionsAdd at he
    split at he
    · rcases List.mem_map.mp he with ⟨e0, he0, rfl⟩
      by_cases hn : (e0.name == a'.name) = true
      · exfalso
        rw [if_pos hn, entryAdd_name] at hname
        have : e0.name = a'.name := by simpa using hn
        exact hne (this.symm.trans hname)
      · rw [if_neg hn] at hname ⊢
        exact h.2 e0 he0 hname
    · rcases List.mem_append.mp he with he0 | he0
      · exact h.2 e he0 hname
      · exfalso
        rw [List.mem_singleton.mp he0] at hname
        exact hne hname

theorem epClean_serviceShellOps {node : Node} {snm : String} {sv : Option Nat}
    {a : ActionDesc} {st st' : RegistryState} (hact : st'.actions = st.actions)
    (h : epClean node snm sv a st) : epClean node snm sv a st' := by
  constructor
  · rw [hact]; exact h.1
  · intro e he hname
    rw [hact] at he
    exact h.2 e he hname

theorem epClean_actionsRemove_guard (z : String) (nid' : String)
    {node : Node} {snm : String} {sv : Option Nat} {a : ActionDesc}
    (hz : z ≠ a.name) {st : RegistryState} (h : epClean node snm sv a st) :
    epClean node snm sv a (actionsRemove z nid' st) := by
  constructor
  · show (st.actions.map _).any _ = true
    rcases List.any_eq_true.mp h.1 with ⟨e0, he0, hen⟩
    apply List.any_eq_true.mpr
    refine ⟨if e0.name == z then
        { e0 with endpoints := e0.endpoints.filter (fun ep => !(ep.nodeId == nid')) }
      else e0, List.mem_map.mpr ⟨e0, he0, rfl⟩, ?_⟩
    split <;> exact hen
  · intro e he hname
    unfold actionsRemove at he
    rcases List.mem_map.mp he with ⟨e0, he0, rfl⟩
    by_cases hn : (e0.name == z) = true
    · exfalso
      rw [if_pos hn] at hname
      have : e0.name = z := by simpa using hn
      exact hz (this.symm.trans hname)
    · rw [if_neg hn] at hname ⊢
      exact h.2 e0 he0 hname

theorem epClean_removeEndpointsOfService_ne (w : String) (wv : Option Nat)
    (nid' : String) {node : Node} {snm : String} {sv : Option Nat}
    {a : ActionDesc} (hne : ¬(w = snm ∧ wv = sv)) {st : RegistryState}
    (h : epClean node snm sv a st) :
    epClean node snm sv a (removeEndpointsOfService w wv nid' st) := by
  constructor
  · show (st.actions.map _).any _ = true
    rcases List.any_eq_true.mp h.1 with ⟨e0, he0, hen⟩
    apply List.any_eq_true.mpr
    exact ⟨_, List.mem_map.mpr ⟨e0, he0, rfl⟩, hen⟩
  · intro e he hname
    unfold removeEndpointsOfService at he
    rcases List.mem_map.mp he with ⟨e0, he0, rfl⟩
    obtain ⟨hany0, hvals0⟩ := h.2 e0 he0 hname
    constructor
    · rcases List.any_eq_true.mp hany0 with ⟨ep0, hep0, hepn⟩
      apply List.any_eq_true.mpr
      refine ⟨ep0, List.mem_filter.mpr ⟨hep0, ?_⟩, hepn⟩
      obtain ⟨v1, v2, v3⟩ := hvals0 ep0 hep0 (by simpa using hepn)
      by_cases h1 : w = snm
      · have h2 : wv ≠ sv := fun hv => hne ⟨h1, hv⟩
        have hv2 : (ep0.serviceVersion == wv) = false := by
          rw [v2]
          simp only [beq_eq_false_iff_ne]
          exact fun hv => h2 hv.symm
        simp [hv2]
      · have hv1 : (ep0.serviceName == w) = false := by
          rw [v1]
          simp only [beq_eq_false_iff_ne]
          exact fun hv => h1 hv.symm
        simp [hv1]
    · intro ep hep hnid
      exact hvals0 ep (List.mem_filter.mp hep).1 hnid

theorem epClean_servicesRemove_ne (w : String) (wv : Option Nat)
    (nid' : String) {node : Node} {snm : String} {sv : Option Nat}
    {a : ActionDesc} (hne : ¬(w = snm ∧ wv = sv)) {st : RegistryState}
    (h : epClean node snm sv a st) :
    epClean node snm sv a (servicesRemove w wv nid' st) := by
  unfold servicesRemove
  split
  · exact h
  · refine epClean_removeEndpointsOfService_ne w wv nid' hne ?_
    exact epClean_serviceShellOps rfl h

theorem epClean_registerActions_nox (node : Node) (snm' : String)
    (sv' : Option Nat) {snm : String} {sv : Option Nat} {a : ActionDesc} :
    ∀ (acts : List ActionDesc), (∀ b ∈ acts, b.name ≠ a.name) →
      ∀ {st : RegistryState}, epClean node snm sv a st →
      epClean node snm sv a (registerActions node snm' sv' acts st) := by
  intro acts
  induction acts with
  | nil => intro _ st h; exact h
  | cons b t ih =>
    intro hall st h
    refine ih (fun c hc => hall c (List.mem_cons_of_mem b hc)) ?_
    refine epClean_serviceShellOps rfl ?_
    exact epClean_actionsAdd_ne node snm' sv' b (hall b (List.mem_cons_self b t)) h

theorem epClean_registerActions_self (node : Node) (snm : String)
    (sv : Option Nat) {a : ActionDesc} :
    ∀ (acts : List ActionDesc), acts.Pairwise (fun b c => b.name ≠ c.name) →
      a ∈ acts → ∀ (st : RegistryState),
      epClean node snm sv a (registerActions node snm sv acts st) := by
  intro acts
  induction acts with
  | nil =>
    intro _ ha
    cases ha
  | cons b t ih =>
    intro hp ha st
    show epClean node snm sv a
      (registerActions node snm sv t (serviceAddAction snm sv node.id b (actionsAdd node snm sv b st)))
    rcases List.mem_cons.mp ha with rfl | hmem
    · refine epClean_registerActions_nox node snm sv t
        (fun c hc => Ne.symm ((List.pairwise_cons.mp hp).1 c hc)) ?_
      refine epClean_serviceShellOps rfl ?_
      exact epClean_actionsAdd_self node snm sv a st
    · exact ih (List.pairwise_cons.mp hp).2 hmem _

theorem epClean_foldl_unregisterAction_guard (node : Node)
    (p : ActionDesc → Bool) {snm : String} {sv : Option Nat} {a : ActionDesc} :
    ∀ (l : List ActionDesc), (∀ y ∈ l, p y = false → y.name ≠ a.name) →
      ∀ {st : RegistryState}, epClean node snm sv a st →
      epClean node snm sv a
        (l.foldl (fun s y => if p y then s else unregisterAction node y.name s) st) := by
  intro l
  induction l with
  | nil => intro _ st h; exact h
  | cons y t ih =>
    intro hall st h
    refine ih (fun z hz => hall z (List.mem_cons_of_mem y hz)) ?_
    dsimp only
    split
    · exact h
    next hp =>
      have hp' : p y = false := by simpa using hp
      exact epClean_actionsRemove_guard y.name node.id
        (hall y (List.mem_cons_self y t) hp') h

theorem epClean_registerServiceOne_pres (node : Node) (svc' : ServiceDesc)
    {snm : String} {sv : Option Nat} {a : ActionDesc}
    (hnames : ∀ b ∈ svc'.actions, b.name ≠ a.name) {st : RegistryState}
    (hmapprop : ∀ T, servicesGet svc'.name svc'.version node.id st = some T →
      ∀ y ∈ T.actions, y.name ≠ a.name)
    (h : epClean node snm sv a st) :
    epClean node snm sv a (registerServiceOne node svc' st) := by
  cases hg : servicesGet svc'.name svc'.version node.id st with
  | none =>
    rw [registerServiceOne_notFound node svc' hg]
    exact epClean_registerActions_nox node svc'.name svc'.version svc'.actions hnames
      (epClean_serviceShellOps rfl h)
  | some T =>
    rw [registerServiceOne_found node svc' hg]
    refine epClean_foldl_unregisterAction_guard node _ T.actions
      (fun y hy _ => hmapprop T hg y hy) ?_
    exact epClean_registerActions_nox node svc'.name svc'.version svc'.actions hnames
      (epClean_serviceShellOps rfl h)

theorem epClean_reconcileRemove_kept (node : Node) (Lst : List ServiceDesc)
    {snm : String} {sv : Option Nat} {a : ActionDesc}
    (hkept : ∃ t ∈ Lst, snm = t.name ∧ sv = t.version) {st : RegistryState}
    (h : epClean node snm sv a st) :
    epClean node snm sv a (reconcileRemove node Lst st) := by
  unfold reconcileRemove
  generalize st.services = snapshot
  induction snapshot generalizing st with
  | nil => exact h
  | cons w t ih =>
    refine ih ?_
    dsimp only
    split
    next hguard =>
      simp only [Bool.and_eq_true, Bool.not_eq_true'] at hguard
      obtain ⟨-, hany⟩ := hguard
      refine epClean_servicesRemove_ne w.name w.version node.id ?_ h
      rintro ⟨hn, hv⟩
      rcases hkept with ⟨tk, htk, hkn, hkv⟩
      have hany' : Lst.any (fun svc => w.name == svc.name && w.version == svc.version) = true := by
        refine List.any_eq_true.mpr ⟨tk, htk, ?_⟩
        rw [hn, ← hkn, hv, ← hkv]
        simp
      rw [hany'] at hany
      cases hany
    · exact h

theorem svcCleanState_establish (node : Node) (svc : ServiceDesc)
    (hdist : svc.actions.Pairwise (fun b c => b.name ≠ c.name))
    (st : RegistryState) :
    ∃ T, svcCleanState node svc T (registerServiceOne node svc st) ∧
      ∀ y ∈ T.actions,
        (∃ T0, servicesGet svc.name svc.version node.id st = some T0 ∧
          ∃ y0 ∈ T0.actions, y0.name = y.name) ∨
        (∃ c ∈ svc.actions, c.name = y.name) := by
  cases hg : servicesGet svc.name svc.version node.id st with
  | none =>
    refine ⟨⟨svc.name, svc.version, node.id, svc.settings,
      svc.actions.foldl upsertAction []⟩, ⟨?_, rfl, ?_, ?_, ?_⟩, ?_⟩
    · rw [registerServiceOne_notFound node svc hg]
      rw [servicesGet_registerActions_self node svc.name svc.version svc.actions _]
      have hadd : servicesGet svc.name svc.version node.id
          (servicesAdd node svc.name svc.version svc.settings st) =
          some ⟨svc.name, svc.version, node.id, svc.settings, []⟩ :=
        find?_append_none hg (matchKey_eq_true.mpr ⟨rfl, rfl, rfl⟩)
      rw [hadd, Option.map_some']
    · intro a ha
      exact ⟨foldUpsert_any svc.actions [] (Or.inl ⟨a, ha, rfl⟩),
        foldUpsert_value svc.actions [] hdist ha⟩
    · intro y hy hnone
      exfalso
      rcases foldUpsert_names svc.actions [] y hy with ⟨y0, hy0, -⟩ | ⟨a, ha, han⟩
      · cases hy0
      · have := List.any_eq_false.mp hnone a ha
        exact this (by simpa using han)
    · intro a ha
      rw [registerServiceOne_notFound node svc hg]
      exact epClean_registerActions_self node svc.name svc.version svc.actions hdist ha _
    · intro y hy
      rcases foldUpsert_names svc.actions [] y hy with ⟨y0, hy0, -⟩ | ⟨c, hc, hcn⟩
      · cases hy0
      · exact Or.inr ⟨c, hc, hcn⟩
  | some T0 =>
    refine ⟨⟨T0.name, T0.version, T0.nodeId, svc.settings,
      svc.actions.foldl upsertAction T0.actions⟩, ⟨?_, rfl, ?_, ?_, ?_⟩, ?_⟩
    · rw [registerServiceOne_found node svc hg]
      rw [servicesGet_congr_services
        (foldl_unregisterAction_services node _ T0.actions _) svc.name svc.version node.id]
      rw [servicesGet_registerActions_self node svc.name svc.version svc.actions _]
      rw [servicesGet_serviceUpdate_self svc.name svc.version node.id svc.settings st]
      rw [hg, Option.map_some', Option.map_some']
    · intro a ha
      exact ⟨foldUpsert_any svc.actions T0.actions (Or.inl ⟨a, ha, rfl⟩),
        foldUpsert_value svc.actions T0.actions hdist ha⟩
    · intro y hy hnone
      rcases foldUpsert_names svc.actions T0.actions y hy with ⟨y0, hy0, hyn⟩ | ⟨a, ha, han⟩
      · rw [registerServiceOne_found node svc hg]
        rw [← hyn]
        refine noEP_foldl_unregisterAction_establish node _ y0.name T0.actions _
          ⟨y0, hy0, rfl, ?_⟩
        rw [hyn]
        exact hnone
      · exfalso
        have := List.any_eq_false.mp hnone a ha
        exact this (by simpa using han)
    · intro a ha
      rw [registerServiceOne_found node svc hg]
      refine epClean_foldl_unregisterAction_guard node _ T0.actions ?_ ?_
      · intro y hy hpy hyeq
        have := List.any_eq_false.mp hpy a ha
        exact this (by simpa using hyeq.symm)
      · exact epClean_registerActions_self node svc.name svc.version svc.actions hdist ha _
    · intro y hy
      rcases foldUpsert_names svc.actions T0.actions y hy with ⟨y0, hy0, hyn⟩ | ⟨c, hc, hcn⟩
      · exact Or.inl ⟨T0, rfl, y0, hy0, hyn⟩
      · exact Or.inr ⟨c, hc, hcn⟩

theorem svcCleanState_registerServiceOne_pres (node : Node) (svc : ServiceDesc)
    (T : ServiceItem) (u : ServiceDesc)
    (hkey : ¬(u.name = svc.name ∧ u.version = svc.version))
    (hacts : ∀ b ∈ u.actions, ∀ c ∈ svc.actions, b.name ≠ c.name)
    (hyd : ∀ y ∈ T.actions, ∀ b ∈ u.actions, b.name ≠ y.name)
    {cur : RegistryState}
    (hget : ∀ T', servicesGet u.name u.version node.id cur = some T' →
      ∀ y ∈ T'.actions, ∀ c ∈ svc.actions, y.name ≠ c.name)
    (h : svcCleanState node svc T cur) :
    svcCleanState node svc T (registerServiceOne node u cur) := by
  obtain ⟨hT, hset, hmapC, hQ3, hEP⟩ := h
  refine ⟨?_, hset, hmapC, ?_, ?_⟩
  · rw [servicesGet_registerServiceOne_ne node u hkey cur]
    exact hT
  · intro y hy hcond
    exact noEP_registerServiceOne node u (fun b hb => hyd y hy b hb) (hQ3 y hy hcond)
  · intro a ha
    refine epClean_registerServiceOne_pres node u
      (fun b hb => hacts b hb a ha) ?_ (hEP a ha)
    intro T' hT' y hy'
    exact hget T' hT' y hy' a ha

theorem svcCleanState_segment (node : Node) (svc : ServiceDesc)
    (T : ServiceItem) :
    ∀ (R : List ServiceDesc) (cur : RegistryState),
      R.Pairwise (fun t u => ¬(t.name = u.name ∧ t.version = u.version)) →
      (∀ t ∈ R, ¬(t.name = svc.name ∧ t.version = svc.version)) →
      (∀ t ∈ R, ∀ b ∈ t.actions, ∀ c ∈ svc.actions, b.name ≠ c.name) →
      (∀ t ∈ R, ∀ y ∈ T.actions, ∀ b ∈ t.actions, b.name ≠ y.name) →
      (∀ t ∈ R, ∀ T', servicesGet t.name t.version node.id cur = some T' →
        ∀ y ∈ T'.actions, ∀ c ∈ svc.actions, y.name ≠ c.name) →
      svcCleanState node svc T cur →
      svcCleanState node svc T
        (R.foldl (fun acc t => registerServiceOne node t acc) cur) := by
  intro R
  induction R with
  | nil => intro cur _ _ _ _ _ h; exact h
  | cons u R' ih =>
    intro cur hp hk ha hy hg h
    show svcCleanState node svc T
      (R'.foldl (fun acc t => registerServiceOne node t acc) (registerServiceOne node u cur))
    obtain ⟨hrel, hp'⟩ := List.pairwise_cons.mp hp
    refine ih (registerServiceOne node u cur) hp'
      (fun t ht => hk t (List.mem_cons_of_mem u ht))
      (fun t ht => ha t (List.mem_cons_of_mem u ht))
      (fun t ht => hy t (List.mem_cons_of_mem u ht)) ?_ ?_
    · intro t ht T' hT'
      rw [servicesGet_registerServiceOne_ne node u ?hne (cur)] at hT'
      case hne => exact hrel t ht
      exact hg t (List.mem_cons_of_mem u ht) T' hT'
    · exact svcCleanState_registerServiceOne_pres node svc T u
        (hk u (List.mem_cons_self u R')) (ha u (List.mem_cons_self u R'))
        (hy u (List.mem_cons_self u R')) (hg u (List.mem_cons_self u R')) h

theorem svcCleanState_reconcileRemove_kept (node : Node) (Lst : List ServiceDesc)
    (svc : ServiceDesc) (T : ServiceItem)
    (hkept : ∃ t ∈ Lst, svc.name = t.name ∧ svc.version = t.version)
    {cur : RegistryState} (h : svcCleanState node svc T cur) :
    svcCleanState node svc T (reconcileRemove node Lst cur) := by
  obtain ⟨hT, hset, hmapC, hQ3, hEP⟩ := h
  refine ⟨?_, hset, hmapC, ?_, ?_⟩
  · rw [servicesGet_reconcileRemove_kept node Lst hkept cur]
    exact hT
  · intro y hy hcond
    exact noEP_reconcileRemove node Lst (hQ3 y hy hcond)
  · intro a ha
    exact epClean_reconcileRemove_kept node Lst hkept (hEP a ha)

theorem reconcileRemove_complete (node : Node) (Lst : List ServiceDesc)
    (z : RegistryState) :
    ∀ T ∈ (reconcileRemove node Lst z).services, T.nodeId = node.id →
      ∃ t ∈ Lst, T.name = t.name ∧ T.version = t.version := by
  unfold reconcileRemove
  have haux : ∀ (snapshot : List ServiceItem) (cur : RegistryState),
      (∀ T ∈ cur.services, T ∈ snapshot ∨ (T.nodeId = node.id →
        ∃ t ∈ Lst, T.name = t.name ∧ T.version = t.version)) →
      ∀ T ∈ (snapshot.foldl (fun s service =>
          if service.nodeId == node.id &&
              !(Lst.any (fun svc =>
                  service.name == svc.name && service.version == svc.version)) then
            unregisterService service.name service.version node.id s
          else s) cur).services, T.nodeId = node.id →
        ∃ t ∈ Lst, T.name = t.name ∧ T.version = t.version := by
    intro snapshot
    induction snapshot with
    | nil =>
      intro cur hyp T hT hnid
      rcases hyp T hT with hmem | hP
      · cases hmem
      · exact hP hnid
    | cons w t ih =>
      intro cur hyp
      apply ih
      intro T hT
      by_cases hg : (w.nodeId == node.id &&
          !(Lst.any (fun svc => w.name == svc.name && w.version == svc.version))) = true
      · have hT2 : T ∈ (if (w.nodeId == node.id &&
            !(Lst.any (fun svc => w.name == svc.name && w.version == svc.version))) = true then
            unregisterService w.name w.version node.id cur else cur).services := hT
        rw [if_pos hg] at hT2
        have hwn : w.nodeId = node.id := by
          simp only [Bool.and_eq_true] at hg
          simpa using hg.1
        unfold unregisterService servicesRemove at hT2
        split at hT2
        next hfind =>
          rcases hyp T hT2 with hmem | hP
          · rcases List.mem_cons.mp hmem with rfl | hmem'
            · exfalso
              have hwk : T.matchKey T.name T.version node.id = true :=
                matchKey_eq_true.mpr ⟨rfl, rfl, hwn⟩
              have hfind' : cur.services.find?
                  (fun s => s.matchKey T.name T.version node.id) = none := hfind
              exact List.find?_eq_none.mp hfind' T hT2 hwk
            · exact Or.inl hmem'
          · exact Or.inr hP
        next T1 hfind =>
          have hT3 : T ∈ cur.services.filter
              (fun x => !(x.matchKey w.name w.version node.id)) := hT2
          have hTin := (List.mem_filter.mp hT3).1
          have hTnk := (List.mem_filter.mp hT3).2
          rcases hyp T hTin with hmem | hP
          · rcases List.mem_cons.mp hmem with rfl | hmem'
            · exfalso
              have hwk : T.matchKey T.name T.version node.id = true :=
                matchKey_eq_true.mpr ⟨rfl, rfl, hwn⟩
              rw [hwk] at hTnk
              cases hTnk
            · exact Or.inl hmem'
          · exact Or.inr hP
      · have hT2 : T ∈ (if (w.nodeId == node.id &&
            !(Lst.any (fun svc => w.name == svc.name && w.version == svc.version))) = true then
            unregisterService w.name w.version node.id cur else cur).services := hT
        rw [if_neg hg] at hT2
        rcases hyp T hT2 with hmem | hP
        · rcases List.mem_cons.mp hmem with rfl | hmem'
          · right
            intro hnid
            simp only [Bool.and_eq_true, Bool.not_eq_true'] at hg
            push_neg at hg
            have hany := hg (by simpa using hnid)
            simpa using hany
          · exact Or.inl hmem'
        · exact Or.inr hP
  intro T hT hnid
  exact haux z.services z (fun T' hT' => Or.inl hT') T hT hnid

theorem registerServices_clean (node : Node) (L : List ServiceDesc)
    (st : RegistryState)
    (hkeys : L.Pairwise (fun t u => ¬(t.name = u.name ∧ t.version = u.version)))
    (hnames : ∀ t ∈ L, ∀ u ∈ L, ¬(t.name = u.name ∧ t.version = u.version) →
      ∀ b ∈ t.actions, ∀ c ∈ u.actions, b.name ≠ c.name)
    (hdist : ∀ t ∈ L, t.actions.Pairwise (fun b c => b.name ≠ c.name))
    (hstored : ∀ t ∈ L, ∀ T' ∈ st.services, T'.nodeId = node.id →
      ¬(T'.name = t.name ∧ T'.version = t.version) →
      ∀ y ∈ T'.actions, ∀ b ∈ t.actions, y.name ≠ b.name)
    (svc : ServiceDesc) (hmem : svc ∈ L) :
    ∃ T, svcCleanState node svc T (registerServices node L st) := by
  rcases List.append_of_mem hmem with ⟨P, R, rfl⟩
  unfold registerServices
  rw [List.foldl_append, List.foldl_cons]
  have hpa := List.pairwise_append.mp hkeys
  have hpc := List.pairwise_cons.mp hpa.2.1
  have hmemsvc : svc ∈ P ++ svc :: R :=
    List.mem_append_right P (List.mem_cons_self svc R)
  have hmemR : ∀ t ∈ R, t ∈ P ++ svc :: R :=
    fun t ht => List.mem_append_right P (List.mem_cons_of_mem svc ht)
  have hPkey : ∀ t ∈ P, ¬(t.name = svc.name ∧ t.version = svc.version) :=
    fun t ht => hpa.2.2 t ht svc (List.mem_cons_self svc R)
  have hRkey : ∀ t ∈ R, ¬(t.name = svc.name ∧ t.version = svc.version) :=
    fun t ht h' => hpc.1 t ht ⟨h'.1.symm, h'.2.symm⟩
  have hPRkey : ∀ p ∈ P, ∀ t ∈ R, ¬(p.name = t.name ∧ p.version = t.version) :=
    fun p hp t ht => hpa.2.2 p hp t (List.mem_cons_of_mem svc ht)
  have hgetP : servicesGet svc.name svc.version node.id
      (P.foldl (fun acc t => registerServiceOne node t acc) st) =
      servicesGet svc.name svc.version node.id st :=
    servicesGet_foldl_registerServiceOne_ne node P hPkey st
  obtain ⟨T, hclean, hprov⟩ := svcCleanState_establish node svc
    (hdist svc hmemsvc) (P.foldl (fun acc t => registerServiceOne node t acc) st)
  have haR : ∀ t ∈ R, ∀ b ∈ t.actions, ∀ c ∈ svc.actions, b.name ≠ c.name :=
    fun t ht => hnames t (hmemR t ht) svc hmemsvc (hRkey t ht)
  have hyR : ∀ t ∈ R, ∀ y ∈ T.actions, ∀ b ∈ t.actions, b.name ≠ y.name := by
    intro t ht y hy b hb
    rcases hprov y hy with ⟨T0, hg0, y0, hy0, hyn⟩ | ⟨c, hc, hcn⟩
    · rw [hgetP] at hg0
      have hg0' : st.services.find?
          (fun s => s.matchKey svc.name svc.version node.id) = some T0 := hg0
      have hmemT0 := List.mem_of_find?_eq_some hg0'
      have hkT0 := matchKey_eq_true.mp (by simpa using List.find?_some hg0')
      have hne : ¬(T0.name = t.name ∧ T0.version = t.version) := by
        rintro ⟨h1, h2⟩
        exact hRkey t ht ⟨h1.symm.trans hkT0.1, h2.symm.trans hkT0.2.1⟩
      have hres := hstored t (hmemR t ht) T0 hmemT0 hkT0.2.2 hne y0 hy0 b hb
      rw [hyn] at hres
      exact hres.symm
    · have hres := haR t ht b hb c hc
      rw [hcn] at hres
      exact hres
  have hgR : ∀ t ∈ R, ∀ T',
      servicesGet t.name t.version node.id
        (registerServiceOne node svc
          (P.foldl (fun acc u => registerServiceOne node u acc) st)) = some T' →
      ∀ y ∈ T'.actions, ∀ c ∈ svc.actions, y.name ≠ c.name := by
    intro t ht T' hT' y hy c hc
    rw [servicesGet_registerServiceOne_ne node svc (hpc.1 t ht) _] at hT'
    rw [servicesGet_foldl_registerServiceOne_ne node P
      (fun p hp => hPRkey p hp t ht) st] at hT'
    have hT'' : st.services.find?
        (fun s => s.matchKey t.name t.version node.id) = some T' := hT'
    have hmemT' := List.mem_of_find?_eq_some hT''
    have hkT' := matchKey_eq_true.mp (by simpa using List.find?_some hT'')
    have hne2 : ¬(T'.name = svc.name ∧ T'.version = svc.version) := by
      rintro ⟨h1, h2⟩
      exact hRkey t ht ⟨hkT'.1.symm.trans h1, hkT'.2.1.symm.trans h2⟩
    exact hstored svc hmemsvc T' hmemT' hkT'.2.2 hne2 y hy c hc
  have hseg := svcCleanState_segment node svc T R
    (registerServiceOne node svc (P.foldl (fun acc u => registerServiceOne node u acc) st))
    hpc.2 hRkey haR hyR hgR hclean
  exact ⟨T, svcCleanState_reconcileRemove_kept node (P ++ svc :: R) svc T
    ⟨svc, hmemsvc, rfl, rfl⟩ hseg⟩

/-- C2: for every node `n` and service list `L`, calling
`registerServices(n, L)` twice in a row leaves the registry's catalogs in
exactly the same state as calling it once — the second call changes
nothing. Proved under the well-formedness expected of a node's info
payload: the stored service catalog has no duplicate `(name, version,
nodeId)` entries, the descriptors of `L` carry pairwise-distinct
`(name, version)` keys (JS object semantics) and pairwise-distinct action
names within and across descriptors, and no other stored service of the
same node still maps an action name that `L` provides. -/
theorem registerServices_idem (node : Node) (L : List ServiceDesc)
    (st : RegistryState)
    (hSU : servicesUnique st.services)
    (hkeys : L.Pairwise (fun t u => ¬(t.name = u.name ∧ t.version = u.version)))
    (hnames : ∀ t ∈ L, ∀ u ∈ L, ¬(t.name = u.name ∧ t.version = u.version) →
      ∀ b ∈ t.actions, ∀ c ∈ u.actions, b.name ≠ c.name)
    (hdist : ∀ t ∈ L, t.actions.Pairwise (fun b c => b.name ≠ c.name))
    (hstored : ∀ t ∈ L, ∀ T' ∈ st.services, T'.nodeId = node.id →
      ¬(T'.name = t.name ∧ T'.version = t.version) →
      ∀ y ∈ T'.actions, ∀ b ∈ t.actions, y.name ≠ b.name) :
    registerServices node L (registerServices node L st) =
      registerServices node L st := by
  have hSU1 : servicesUnique (registerServices node L st).services :=
    SU_registerServices node L hSU
  have hphase1 : L.foldl (fun acc svc => registerServiceOne node svc acc)
      (registerServices node L st) = registerServices node L st := by
    apply foldl_registerServiceOne_id
    intro svc hsvc
    obtain ⟨T, hclean⟩ :=
      registerServices_clean node L st hkeys hnames hdist hstored svc hsvc
    exact registerServiceOne_id node svc (registerServices node L st) hSU1 hclean
  have hcomplete : ∀ T ∈ (registerServices node L st).services,
      T.nodeId = node.id → ∃ t ∈ L, T.name = t.name ∧ T.version = t.version := by
    intro T hT hnid
    exact reconcileRemove_complete node L
      (L.foldl (fun s svc => registerServiceOne node svc s) st) T hT hnid
  show reconcileRemove node L
      (L.foldl (fun s svc => registerServiceOne node svc s)
        (registerServices node L st)) = registerServices node L st
  rw [hphase1]
  exact reconcileRemove_id node L (registerServices node L st) hcomplete

/-- Concrete well-formed instance of the idempotence theorem: registering
`[svcMath, svcPost]` for node `A` twice on a fresh registry equals
registering once. -/
theorem registerServices_idem_witness :
    registerServices nodeA [svcMath, svcPost]
        (registerServices nodeA [svcMath, svcPost] (initRegistry lnW)) =
      registerServices nodeA [svcMath, svcPost] (initRegistry lnW) :=
  registerServices_idem nodeA [svcMath, svcPost] (initRegistry lnW)
    (by unfold servicesUnique; decide) (by decide) (by decide) (by decide)
    (by decide)

end Theorems

end Moleculer
